import Mathlib

/-!
Shallow embedding of the seat-assignment engine of the wedding-seating
repository (server routes `seating` in the source), together with proofs
of the specification claims about it.

Entity ids are cuid strings in the Prisma schema; they are modelled as
natural numbers here.  Record fields that no embedded operation reads
(creation timestamps, audit-log rows, socket payloads, position
coordinates, notes, ...) are omitted.  The database is modelled as lists
of rows; the order of a list is the row-scan (encounter) order of the
corresponding Prisma `findMany`.
-/

namespace WeddingSeating

/-- Role of a project member (`ProjectMember.role` in the schema). -/
inductive Role where
  | OWNER
  | COLLABORATOR
  | VIEWER
deriving Repr, DecidableEq

/-- Type of a pairwise seating constraint (`SeatingConstraint.constraintType`). -/
inductive ConstraintType where
  | MUST_TOGETHER
  | MUST_APART
deriving Repr, DecidableEq

/-- A guest roster entry.  `headCount` is the number of physical seats the
entry consumes, `tags` the guest-chosen classification strings, `areaId`
an optional weak reference to an Area. -/
structure Guest where
  id : Nat
  projectId : Nat
  name : String
  headCount : Nat
  tags : List String
  areaId : Option Nat
deriving Repr, DecidableEq

/-- A seating table (`Table` in the schema; position coordinates omitted). -/
structure DiningTable where
  id : Nat
  projectId : Nat
  name : String
  capacity : Nat
deriving Repr, DecidableEq

/-- A seat-occupancy record (`SeatingAssignment`): binds one guest to one
table.  `guestId` is a unique column in the schema (the route deletes and
updates assignments through `where: { guestId }`). -/
structure SeatingAssignment where
  guestId : Nat
  tableId : Nat
  assignedById : Nat
deriving Repr, DecidableEq

/-- A pairwise constraint row (`SeatingConstraint`; the row id and
`createdById` are omitted: no embedded operation reads them). -/
structure SeatingConstraint where
  projectId : Nat
  guest1Id : Nat
  guest2Id : Nat
  constraintType : ConstraintType
deriving Repr, DecidableEq

/-- A project membership row carrying the actor's role. -/
structure ProjectMember where
  projectId : Nat
  userId : Nat
  role : Role
deriving Repr, DecidableEq

/-- The database state visible to the seating routes. -/
structure DB where
  guests : List Guest
  tables : List DiningTable
  assignments : List SeatingAssignment
  constraints : List SeatingConstraint
  members : List ProjectMember
deriving Repr, DecidableEq

/-- Error taxonomy of the seating routes.  Each constructor corresponds to
one `AppError` thrown by the source; `CapacityExceeded` carries the
remaining-seat and required-seat numbers interpolated into the message,
`ConstraintViolation` the two guest names. -/
inductive SeatingError where
  | NotFound (what : String)
  | AlreadyAssigned
  | NotAssigned
  | CapacityExceeded (remaining : Int) (need : Nat)
  | ConstraintViolation (name1 name2 : String)
  | DuplicateConstraint
  | SelfConstraint
  | Forbidden
deriving Repr, DecidableEq

/-- Look a guest up by id (`prisma.guest.findUnique({ where: { id } })`). -/
def findGuest (db : DB) (guestId : Nat) : Option Guest :=
  db.guests.find? (fun g => g.id == guestId)

/-- Look a table up by id (`prisma.table.findUnique({ where: { id } })`).
Note the query has no project filter. -/
def findTable (db : DB) (tableId : Nat) : Option DiningTable :=
  db.tables.find? (fun t => t.id == tableId)

/-- The guest's assignment, if any (the `include: { assignment: true }`
join through the unique `guestId` column). -/
def findAssignment (db : DB) (guestId : Nat) : Option SeatingAssignment :=
  db.assignments.find? (fun a => a.guestId == guestId)

/-- The actor's membership row for a project
(`prisma.projectMember.findUnique({ where: { projectId_userId } })`). -/
def findMember (db : DB) (projectId userId : Nat) : Option ProjectMember :=
  db.members.find? (fun m => m.projectId == projectId && m.userId == userId)

/-- The rows of an assignment list that sit at a table, resolved to their
guests against a guest directory (the list-level core of the
`assignments { include: { guest } }` join, in assignment-row order). -/
def occRows (guests : List Guest) (assignments : List SeatingAssignment)
    (tableId : Nat) : List Guest :=
  (assignments.filter (fun a => a.tableId == tableId)).filterMap
    (fun a => guests.find? (fun g => g.id == a.guestId))

/-- The guests currently occupying a table, resolved through the
`assignments { include: { guest } }` join, in assignment-row order. -/
def occupantGuests (db : DB) (tableId : Nat) : List Guest :=
  occRows db.guests db.assignments tableId

/-- Headcount sum of the rows of an assignment list sitting at a table. -/
def occSum (guests : List Guest) (assignments : List SeatingAssignment)
    (tableId : Nat) : Nat :=
  ((occRows guests assignments tableId).map (fun g => g.headCount)).sum

/-- Resolved headcount of a guest id against a guest directory (zero when
the id does not resolve, which foreign keys rule out in the database). -/
def headOf (guests : List Guest) (guestId : Nat) : Nat :=
  ((guests.find? (fun g => g.id == guestId)).map (fun g => g.headCount)).getD 0

/-- Occupied seats of a table: `table.assignments.reduce((sum, a) => sum +
a.guest.headCount, 0)` in the source. -/
def occupiedSeats (db : DB) (tableId : Nat) : Nat :=
  ((occupantGuests db tableId).map (fun g => g.headCount)).sum

/-- Every constraint row touching a guest, as either member: the
`constraints1 ++ constraints2` include, equally the `OR` query of the
assign route. -/
def constraintsOf (db : DB) (guestId : Nat) : List SeatingConstraint :=
  db.constraints.filter (fun c => c.guest1Id == guestId || c.guest2Id == guestId)

/-- Resolve the other member of a constraint relative to a candidate guest
(`constraint.guest1Id === guestId ? constraint.guest2Id : constraint.guest1Id`). -/
def otherMemberId (c : SeatingConstraint) (guestId : Nat) : Nat :=
  if c.guest1Id == guestId then c.guest2Id else c.guest1Id

/-- Name of a guest id, resolved against the guest directory (used for the
joined `guest1.name` / `guest2.name` selections in error messages). -/
def guestNameOf (db : DB) (guestId : Nat) : String :=
  ((db.guests.find? (fun g => g.id == guestId)).map (fun g => g.name)).getD ""

/-- POST `/assign` (part_001 lines 553-700).  The actor, guest and table
ids are the request parameters; the falsy-field guard of the route only
rejects requests missing a field and is modelled by the arguments being
present.  On success the created assignment row is appended.

The occupant sub-query of this route selects only `headCount` for each
occupant guest (`guest: { select: { headCount: true } }`), so the later
read of `g.id` when building `tableGuestIds` yields `undefined` for every
occupant; that list is modelled as `none` entries of type `Option Nat`,
and the MUST_APART membership test compares them against `some
otherGuestId`. -/
def assign (db : DB) (userId guestId tableId : Nat) :
    Except SeatingError (SeatingAssignment × DB) :=
  match findGuest db guestId with
  | none => Except.error (SeatingError.NotFound "guest")
  | some guest =>
  match findAssignment db guestId with
  | some _ => Except.error SeatingError.AlreadyAssigned
  | none =>
  match findTable db tableId with
  | none => Except.error (SeatingError.NotFound "table")
  | some table =>
  match findMember db guest.projectId userId with
  | none => Except.error SeatingError.Forbidden
  | some member =>
  if member.role == Role.VIEWER then Except.error SeatingError.Forbidden else
  let occupants := occupantGuests db tableId
  let currentOccupied := (occupants.map (fun g => g.headCount)).sum
  if table.capacity < currentOccupied + guest.headCount then
    Except.error
      (SeatingError.CapacityExceeded ((table.capacity : Int) - currentOccupied) guest.headCount)
  else
  let constraints := constraintsOf db guestId
  let tableGuestIds : List (Option Nat) := occupants.map (fun _ => none)
  match constraints.find? (fun c =>
      c.constraintType == ConstraintType.MUST_APART
        && tableGuestIds.contains (some (otherMemberId c guestId))) with
  | some c =>
      Except.error
        (SeatingError.ConstraintViolation guest.name (guestNameOf db (otherMemberId c guestId)))
  | none =>
      let a : SeatingAssignment := ⟨guestId, tableId, userId⟩
      Except.ok (a, { db with assignments := db.assignments ++ [a] })

/-- DELETE `/unassign/:guestId` (part_001 lines 703-773).  The delete is
keyed by the unique `guestId` column; under that uniqueness removing every
row with this `guestId` is the same as removing the one row. -/
def unassign (db : DB) (userId guestId : Nat) : Except SeatingError DB :=
  match findGuest db guestId with
  | none => Except.error (SeatingError.NotFound "guest")
  | some guest =>
  match findAssignment db guestId with
  | none => Except.error SeatingError.NotAssigned
  | some _ =>
  match findMember db guest.projectId userId with
  | none => Except.error SeatingError.Forbidden
  | some member =>
  if member.role == Role.VIEWER then Except.error SeatingError.Forbidden else
  Except.ok { db with assignments := db.assignments.filter (fun a => !(a.guestId == guestId)) }

/-- PUT `/move` (part_001 lines 776-915).  The destination table is looked
up by id only; its occupant sub-query selects `id` and `headCount`, so
here the occupant ids are real.  The constraint query is filtered to
MUST_APART rows.  If the guest already has an assignment its row is
updated in place (update keyed by the unique `guestId`), otherwise a row
is created. -/
def move (db : DB) (userId guestId newTableId : Nat) : Except SeatingError DB :=
  match findGuest db guestId with
  | none => Except.error (SeatingError.NotFound "guest")
  | some guest =>
  match findMember db guest.projectId userId with
  | none => Except.error SeatingError.Forbidden
  | some member =>
  if member.role == Role.VIEWER then Except.error SeatingError.Forbidden else
  match findTable db newTableId with
  | none => Except.error (SeatingError.NotFound "newTable")
  | some newTable =>
  let occupants := occupantGuests db newTableId
  let currentOccupied := (occupants.map (fun g => g.headCount)).sum
  if newTable.capacity < currentOccupied + guest.headCount then
    Except.error
      (SeatingError.CapacityExceeded ((newTable.capacity : Int) - currentOccupied) guest.headCount)
  else
  let constraints := (constraintsOf db guestId).filter
    (fun c => c.constraintType == ConstraintType.MUST_APART)
  let tableGuestIds : List Nat := occupants.map (fun g => g.id)
  match constraints.find? (fun c => tableGuestIds.contains (otherMemberId c guestId)) with
  | some c =>
      Except.error
        (SeatingError.ConstraintViolation guest.name (guestNameOf db (otherMemberId c guestId)))
  | none =>
  match findAssignment db guestId with
  | some _ =>
      let updated := db.assignments.map (fun a =>
        if a.guestId == guestId
          then { a with tableId := newTableId, assignedById := userId } else a)
      Except.ok { db with assignments := updated }
  | none =>
      Except.ok { db with assignments := db.assignments ++ [⟨guestId, newTableId, userId⟩] }

/-- POST `/constraint` (part_001 lines 918-982).  The `constraintType`
argument being an element of the two-valued enum models the route's
membership test of the raw string against `['MUST_TOGETHER',
'MUST_APART']`.  The duplicate query searches both orders of the pair and
ignores the constraint type (and has no project filter). -/
def addConstraint (db : DB) (userId projectId guest1Id guest2Id : Nat)
    (constraintType : ConstraintType) : Except SeatingError (SeatingConstraint × DB) :=
  if guest1Id == guest2Id then Except.error SeatingError.SelfConstraint else
  match findMember db projectId userId with
  | none => Except.error SeatingError.Forbidden
  | some member =>
  if member.role == Role.VIEWER then Except.error SeatingError.Forbidden else
  match db.constraints.find? (fun c =>
      (c.guest1Id == guest1Id && c.guest2Id == guest2Id)
        || (c.guest1Id == guest2Id && c.guest2Id == guest1Id)) with
  | some _ => Except.error SeatingError.DuplicateConstraint
  | none =>
      let c : SeatingConstraint := ⟨projectId, guest1Id, guest2Id, constraintType⟩
      Except.ok (c, { db with constraints := db.constraints ++ [c] })

/-- Insert an element into a list, placing it before the first element
`y` with `le x y` (so, for a sorted list, after every strictly smaller
element under the descending reading and before ties). -/
def stableInsert (le : α → α → Bool) (x : α) : List α → List α
  | [] => [x]
  | y :: ys => if le x y then x :: y :: ys else y :: stableInsert le x ys

/-- Stable sort modelling JS `Array.prototype.sort` (stable per the
ECMAScript specification): `le a b` holds when the JS comparator applied
to `(a, b)` is non-positive, i.e. when `a` may stay before `b`.  A stable
sort's output is determined by the comparator alone, so insertion sort is
an exact model. -/
def jsSort (le : α → α → Bool) : List α → List α
  | [] => []
  | x :: xs => stableInsert le x (jsSort le xs)

/-- The constraints of a guest as fetched by the `include: { constraints1,
constraints2 }` joins of the suggest and auto-assign routes: first the rows
where the guest is `guest1`, then those where it is `guest2`. -/
def allConstraintsOf (db : DB) (guestId : Nat) : List SeatingConstraint :=
  db.constraints.filter (fun c => c.guest1Id == guestId)
    ++ db.constraints.filter (fun c => c.guest2Id == guestId)

/-- The constraint for-loop of the suggest route: walks the constraint
list, sets the conflict flag and stops at the first MUST_APART row whose
other member occupies the table, and otherwise counts the satisfied
MUST_TOGETHER rows. -/
def constraintScan (guestId : Nat) (tableGuestIds : List Nat) :
    List SeatingConstraint → Bool × Nat
  | [] => (false, 0)
  | c :: rest =>
      if c.constraintType == ConstraintType.MUST_APART
          && tableGuestIds.contains (otherMemberId c guestId) then
        (true, 0)
      else
        let r := constraintScan guestId tableGuestIds rest
        ((r.1), (if c.constraintType == ConstraintType.MUST_TOGETHER
            && tableGuestIds.contains (otherMemberId c guestId) then 1 else 0) + r.2)

/-- Table summary returned inside one suggestion. -/
structure SuggestTableInfo where
  id : Nat
  name : String
  capacity : Nat
  occupiedSeats : Nat
  availableSeats : Int
deriving Repr, DecidableEq

/-- One entry of the suggest response. -/
structure Suggestion where
  table : SuggestTableInfo
  score : Int
  reasons : List String
deriving Repr, DecidableEq

/-- Body of the per-table loop of POST `/suggest` (part_001 lines
1057-1126): `none` when the table is skipped (insufficient seats or a
MUST_APART conflict), otherwise the built suggestion entry.  The score is
accumulated in the source's order: tag matches, same-area occupants,
must-together matches, then the near-full penalty. -/
def suggestionFor (db : DB) (guest : Guest) (table : DiningTable) : Option Suggestion :=
  let occupants := occupantGuests db table.id
  let occupiedSeats := (occupants.map (fun g => g.headCount)).sum
  let availableSeats : Int := (table.capacity : Int) - occupiedSeats
  if availableSeats < (guest.headCount : Int) then none else
  let tableGuestIds := occupants.map (fun g => g.id)
  let scan := constraintScan guest.id tableGuestIds (allConstraintsOf db guest.id)
  if scan.1 then none else
  let tableGuestTags := occupants.flatMap (fun g => g.tags)
  let matchingTags := guest.tags.filter (fun t => tableGuestTags.contains t)
  let sameAreaGuests := occupants.filter (fun g => g.areaId == guest.areaId)
  let score1 : Int := 0 + matchingTags.length * 10
  let score2 : Int := score1 + sameAreaGuests.length * 5
  let score3 : Int := score2 + scan.2 * 20
  let score : Int := if availableSeats ≤ 2 then score3 - 5 else score3
  some
    { table := ⟨table.id, table.name, table.capacity, occupiedSeats, availableSeats⟩
      score := score
      reasons := List.filterMap id
        [ if matchingTags.length > 0 then
            some ("有" ++ toString matchingTags.length ++ "位相同标签的宾客") else none,
          if sameAreaGuests.length > 0 then
            some ("有" ++ toString sameAreaGuests.length ++ "位同区域的宾客") else none,
          if scan.2 > 0 then
            some ("有" ++ toString scan.2 ++ "位必须同桌的宾客") else none ] }

/-- The unsorted candidate list of the suggest route, in table-scan
(encounter) order. -/
def suggestCandidates (db : DB) (guest : Guest) (projectId : Nat) : List Suggestion :=
  (db.tables.filter (fun t => t.projectId == projectId)).filterMap
    (fun t => suggestionFor db guest t)

/-- Comparator of `suggestions.sort((a, b) => b.score - a.score)`: element
`a` may stay before `b` exactly when the JS comparator is non-positive. -/
def suggestLE (a b : Suggestion) : Bool :=
  decide (b.score ≤ a.score)

/-- POST `/suggest` (part_001 lines 1023-1136): read-only; collects one
candidate per admissible table, stably sorts by score descending (JS
`Array.prototype.sort` is stable) and returns the first five. -/
def suggest (db : DB) (projectId guestId : Nat) : Except SeatingError (List Suggestion) :=
  match findGuest db guestId with
  | none => Except.error (SeatingError.NotFound "guest")
  | some guest =>
      let suggestions := suggestCandidates db guest projectId
      let sorted := jsSort suggestLE suggestions
      Except.ok (sorted.take 5)

/-- Occupant projection used by the auto-assign route's table query
(`guest: { select: { id: true, headCount: true, tags: true } }`). -/
structure OccGuest where
  id : Nat
  headCount : Nat
  tags : List String
deriving Repr, DecidableEq

/-- In-memory picture of one table during an auto-assign pass. -/
structure TableState where
  id : Nat
  name : String
  capacity : Nat
  occupants : List OccGuest
deriving Repr, DecidableEq

/-- Projection of a guest row to the occupant picture pushed by the
auto-assign loop. -/
def toOccGuest (g : Guest) : OccGuest :=
  ⟨g.id, g.headCount, g.tags⟩

/-- Occupied seats of an in-memory table state. -/
def occupiedOf (t : TableState) : Nat :=
  (t.occupants.map (fun g => g.headCount)).sum

/-- Available seats of an in-memory table state (JS subtraction, may be
negative). -/
def availableOf (t : TableState) : Int :=
  (t.capacity : Int) - occupiedOf t

/-- The MUST_APART conflict flag of the auto-assign constraint for-loop
(a break-on-first-hit loop computing a boolean, equal to an existence
test). -/
def hasApartConflict (cs : List SeatingConstraint) (guestId : Nat)
    (tableGuestIds : List Nat) : Bool :=
  cs.any (fun c =>
    c.constraintType == ConstraintType.MUST_APART
      && tableGuestIds.contains (otherMemberId c guestId))

/-- The reduced score of the auto-assign route: only the tag-affinity
term. -/
def autoScore (guest : Guest) (t : TableState) : Int :=
  ((guest.tags.filter (fun tag => (t.occupants.flatMap (fun g => g.tags)).contains tag)).length
      : Int) * 10

/-- The per-table scan of the auto-assign route for one guest: walks the
(indexed) table list keeping the best admissible table; a table replaces
the incumbent only on a strictly greater score (`score > bestScore`), so
ties keep the earlier table.  The accumulator starts at `(null, -1)`. -/
def pickBestAux (guest : Guest) (cs : List SeatingConstraint) :
    List (Nat × TableState) → Option (Nat × TableState) × Int →
      Option (Nat × TableState) × Int
  | [], best => best
  | (i, table) :: rest, best =>
      if availableOf table < (guest.headCount : Int) then
        pickBestAux guest cs rest best
      else if hasApartConflict cs guest.id (table.occupants.map (fun g => g.id)) then
        pickBestAux guest cs rest best
      else
        let score := autoScore guest table
        if best.2 < score then pickBestAux guest cs rest (some (i, table), score)
        else pickBestAux guest cs rest best

/-- Best table for one guest in the auto-assign pass, with its index in
the scanned list. -/
def pickBest (guest : Guest) (cs : List SeatingConstraint)
    (tables : List TableState) : Option (Nat × TableState) × Int :=
  pickBestAux guest cs tables.enum (none, -1)

/-- One line of the auto-assign result detail list. -/
structure AutoDetail where
  guestName : String
  tableName : Option String
  error : Option String
deriving Repr, DecidableEq

/-- Accumulated state of the auto-assign loop: counters, detail lines, the
in-memory table pictures, and the assignment rows created so far (in
creation order). -/
structure AAState where
  assigned : Nat
  failed : Nat
  details : List AutoDetail
  tables : List TableState
  newAssignments : List SeatingAssignment
deriving Repr, DecidableEq

/-- One iteration of the auto-assign guest loop (part_001 lines
1188-1263): on success the assignment row is created and the chosen
table's in-memory occupant list is extended (the source pushes onto the
aliased array element, modelled by `List.set` at the chosen index) before
the next guest is considered; on failure only the counters and details
change. -/
def autoAssignStep (db : DB) (userId : Nat) (st : AAState) (guest : Guest) : AAState :=
  match pickBest guest (allConstraintsOf db guest.id) st.tables with
  | (some (i, bestTable), _) =>
      { assigned := st.assigned + 1
        failed := st.failed
        details := st.details ++ [⟨guest.name, some bestTable.name, none⟩]
        tables := st.tables.set i
          { bestTable with occupants := bestTable.occupants ++ [toOccGuest guest] }
        newAssignments := st.newAssignments ++ [⟨guest.id, bestTable.id, userId⟩] }
  | (none, _) =>
      { st with
        failed := st.failed + 1
        details := st.details ++ [⟨guest.name, none, some "没有合适的桌位"⟩] }

/-- The sequential auto-assign guest loop. -/
def autoAssignLoop (db : DB) (userId : Nat) : List Guest → AAState → AAState
  | [], st => st
  | g :: gs, st => autoAssignLoop db userId gs (autoAssignStep db userId st g)

/-- The guests of a project currently without an assignment, ordered by
`headCount` descending (`orderBy: { headCount: 'desc' }`, modelled as a
stable descending sort of the row list). -/
def unassignedGuestsOf (db : DB) (projectId : Nat) : List Guest :=
  jsSort (fun a b => decide (b.headCount ≤ a.headCount))
    (db.guests.filter (fun g =>
      g.projectId == projectId && (findAssignment db g.id).isNone))

/-- The in-memory table pictures fetched at the start of an auto-assign
pass: every table of the project with its current occupants. -/
def tableStatesOf (db : DB) (projectId : Nat) : List TableState :=
  (db.tables.filter (fun t => t.projectId == projectId)).map (fun t =>
    ⟨t.id, t.name, t.capacity, (occupantGuests db t.id).map toOccGuest⟩)

/-- Result object of the auto-assign route. -/
structure AutoAssignResults where
  assigned : Nat
  failed : Nat
  details : List AutoDetail
deriving Repr, DecidableEq

/-- POST `/auto-assign` (part_001 lines 1139-1275): role gate, then the
sequential greedy pass over the unassigned guests of the project.  The
assignment rows created one by one inside the loop are appended to the
database in creation order. -/
def autoAssign (db : DB) (userId projectId : Nat) :
    Except SeatingError (AutoAssignResults × DB) :=
  match findMember db projectId userId with
  | none => Except.error SeatingError.Forbidden
  | some m =>
      if m.role == Role.VIEWER then Except.error SeatingError.Forbidden else
      let final := autoAssignLoop db userId (unassignedGuestsOf db projectId)
        ⟨0, 0, [], tableStatesOf db projectId, []⟩
      Except.ok (⟨final.assigned, final.failed, final.details⟩,
        { db with assignments := db.assignments ++ final.newAssignments })

/-- A seating-route request (the mutating routes plus the read-only
suggest; remove-constraint is omitted, it does not touch assignments). -/
inductive Op where
  | assign (userId guestId tableId : Nat)
  | unassign (userId guestId : Nat)
  | move (userId guestId newTableId : Nat)
  | addConstraint (userId projectId guest1Id guest2Id : Nat) (ty : ConstraintType)
  | suggest (projectId guestId : Nat)
  | autoAssign (userId projectId : Nat)
deriving Repr, DecidableEq

/-- Database after handling one request: the committed state on success,
the unchanged state on a thrown error (each route validates before its
first write). -/
def applyOp (db : DB) : Op → DB
  | Op.assign u g t =>
      match assign db u g t with
      | Except.ok (_, db2) => db2
      | Except.error _ => db
  | Op.unassign u g =>
      match unassign db u g with
      | Except.ok db2 => db2
      | Except.error _ => db
  | Op.move u g t =>
      match move db u g t with
      | Except.ok db2 => db2
      | Except.error _ => db
  | Op.addConstraint u p g1 g2 ty =>
      match addConstraint db u p g1 g2 ty with
      | Except.ok (_, db2) => db2
      | Except.error _ => db
  | Op.suggest _ _ => db
  | Op.autoAssign u p =>
      match autoAssign db u p with
      | Except.ok (_, db2) => db2
      | Except.error _ => db

/-- Database after a sequence of requests. -/
def runOps (db : DB) (ops : List Op) : DB :=
  ops.foldl applyOp db

/-- Capacity invariant: every table's occupied headcount is within its
capacity. -/
def capacityOk (db : DB) : Prop :=
  ∀ t ∈ db.tables, occupiedSeats db t.id ≤ t.capacity

/-- Well-formedness the surrounding CRUD guarantees: primary keys of
guests and tables are unique, and the unique `guestId` column of the
assignment table holds. -/
def WFdb (db : DB) : Prop :=
  (db.guests.map (fun g => g.id)).Nodup
    ∧ (db.tables.map (fun t => t.id)).Nodup
    ∧ (db.assignments.map (fun a => a.guestId)).Nodup

/-- A database with extra assignment rows appended (the shape every
successful write of the seating routes produces). -/
def dbPlus (db : DB) (ns : List SeatingAssignment) : DB :=
  { db with assignments := db.assignments ++ ns }

/-- A table is skipped for a guest in the auto-assign scan exactly when it
lacks seats or holds a MUST_APART partner. -/
def skipsTable (guest : Guest) (cs : List SeatingConstraint) (t : TableState) : Prop :=
  availableOf t < (guest.headCount : Int)
    ∨ hasApartConflict cs guest.id (t.occupants.map (fun g => g.id)) = true

/-- One in-memory table extends another: same identity and capacity, the
occupant list possibly grown at the end (how a table evolves during an
auto-assign pass). -/
def TableExt (t t2 : TableState) : Prop :=
  t2.id = t.id ∧ t2.name = t.name ∧ t2.capacity = t.capacity
    ∧ ∃ extra, t2.occupants = t.occupants ++ extra

/-- Pointwise extension of in-memory table lists. -/
def TablesExt (T T2 : List TableState) : Prop :=
  List.Forall₂ TableExt T T2

/-- Invariant carried by the auto-assign loop state: the in-memory tables
mirror the database with the created rows appended, and the unique-guest
column still holds. -/
def AAInv (db : DB) (projectId : Nat) (st : AAState) : Prop :=
  st.tables = tableStatesOf (dbPlus db st.newAssignments) projectId
    ∧ ((dbPlus db st.newAssignments).assignments.map (fun a => a.guestId)).Nodup

/-- Every in-memory table is within capacity. -/
def tablesCapOk (T : List TableState) : Prop :=
  ∀ ts ∈ T, occupiedOf ts ≤ ts.capacity

section ExampleDatabases

/-- Example database: guests A and B (one seat each) with a MUST_APART
constraint, A seated at table 1, two tables of capacity 10, one owner. -/
def dbApart : DB :=
  { guests := [⟨1, 1, "A", 1, [], none⟩, ⟨2, 1, "B", 1, [], none⟩]
    tables := [⟨1, 1, "T1", 10⟩, ⟨2, 1, "T2", 10⟩]
    assignments := [⟨1, 1, 100⟩]
    constraints := [⟨1, 1, 2, ConstraintType.MUST_APART⟩]
    members := [⟨1, 100, Role.OWNER⟩] }

/-- Example database: a table of capacity 10 holding a nine-seat guest,
and an unassigned two-seat guest. -/
def dbCap : DB :=
  { guests := [⟨1, 1, "Big", 9, [], none⟩, ⟨2, 1, "Two", 2, [], none⟩]
    tables := [⟨1, 1, "T1", 10⟩]
    assignments := [⟨1, 1, 100⟩]
    constraints := []
    members := [⟨1, 100, Role.OWNER⟩] }

/-- Example database: an exactly-full table whose sole occupant fills it. -/
def dbFull : DB :=
  { guests := [⟨1, 1, "Big", 10, [], none⟩]
    tables := [⟨1, 1, "T1", 10⟩]
    assignments := [⟨1, 1, 100⟩]
    constraints := []
    members := [⟨1, 100, Role.OWNER⟩] }

/-- Example database: a guest in project 1, a table in project 2, the
actor an owner of project 1 only. -/
def dbCross : DB :=
  { guests := [⟨1, 1, "A", 1, [], none⟩]
    tables := [⟨7, 2, "P2T", 10⟩]
    assignments := []
    constraints := []
    members := [⟨1, 100, Role.OWNER⟩] }

/-- Example database: three unassigned guests and two tables for the
auto-assign pass. -/
def dbAuto : DB :=
  { guests := [⟨1, 1, "A", 2, ["x"], none⟩, ⟨2, 1, "B", 5, [], none⟩,
               ⟨3, 1, "C", 1, ["x"], none⟩]
    tables := [⟨1, 1, "T1", 3⟩, ⟨2, 1, "T2", 4⟩]
    assignments := []
    constraints := []
    members := [⟨1, 100, Role.OWNER⟩] }

/-- Example database: two guests, no constraints yet, one owner. -/
def dbTwoGuests : DB :=
  { guests := [⟨1, 1, "A", 1, [], none⟩, ⟨2, 1, "B", 1, [], none⟩]
    tables := []
    assignments := []
    constraints := []
    members := [⟨1, 100, Role.OWNER⟩] }

/-- Number of MUST_TOGETHER constraints of the candidate whose other
member currently occupies the table (the `mustTogetherCount` of the
spec's Constraint Checker, section 4.2). -/
def mustTogetherCount (db : DB) (guestId : Nat) (tableGuestIds : List Nat) : Nat :=
  ((allConstraintsOf db guestId).filter (fun c =>
    c.constraintType == ConstraintType.MUST_TOGETHER
      && tableGuestIds.contains (otherMemberId c guestId))).length

/-- Modelled from the spec wording of claim C3 (spec section 4.3): the
flat scoring formula `10 × matching tags + 5 × same-area occupants + 20 ×
mustTogetherCount − 5 if pre-seating available ≤ 2`, for comparison with
the score accumulated by the suggest route. -/
def specSuggestScore (db : DB) (guest : Guest) (table : DiningTable) : Int :=
  let occupants := occupantGuests db table.id
  let occupied : Nat := (occupants.map (fun g => g.headCount)).sum
  let available : Int := (table.capacity : Int) - (occupied : Int)
  10 * ((guest.tags.filter
        (fun tg => (occupants.flatMap (fun o => o.tags)).contains tg)).length : Int)
    + 5 * ((occupants.filter (fun o => o.areaId == guest.areaId)).length : Int)
    + 20 * (mustTogetherCount db guest.id (occupants.map (fun o => o.id)) : Int)
    - (if available ≤ 2 then 5 else 0)

section ScoreExample

/-- Candidate guest for the scoring example: two tags, area 5, one seat. -/
def guestSc : Guest := ⟨2, 1, "C", 1, ["x", "y"], some 5⟩

/-- Table for the scoring example: capacity 9, leaving 2 seats free. -/
def tableSc : DiningTable := ⟨1, 1, "T1", 9⟩

/-- Example database exercising every scoring term: a seven-seat occupant
sharing tag `x` and area 5 with the candidate, a satisfied MUST_TOGETHER
constraint, and only two seats left (near-full penalty). -/
def dbScore : DB :=
  { guests := [⟨1, 1, "O1", 7, ["x"], some 5⟩, guestSc]
    tables := [tableSc]
    assignments := [⟨1, 1, 100⟩]
    constraints := [⟨1, 2, 1, ConstraintType.MUST_TOGETHER⟩]
    members := [⟨1, 100, Role.OWNER⟩] }

end ScoreExample

/-- The state of `dbTwoGuests` after a first constraint between guests 1
and 2 has been added. -/
def dbDup1 : DB :=
  { dbTwoGuests with constraints := [⟨1, 1, 2, ConstraintType.MUST_APART⟩] }

end ExampleDatabases

section SortLemmas

variable {α : Type _} {le : α → α → Bool} {p : α → Bool}

theorem stableInsert_split (le : α → α → Bool) (x : α) (l : List α) :
    ∃ l₁ l₂, stableInsert le x l = l₁ ++ x :: l₂ ∧ l = l₁ ++ l₂
      ∧ ∀ y ∈ l₁, le x y = false := by
  induction l with
  | nil => exact ⟨[], [], rfl, rfl, by simp⟩
  | cons y ys ih =>
      by_cases h : le x y = true
      · exact ⟨[], y :: ys, by simp [stableInsert, h], rfl, by simp⟩
      · obtain ⟨l₁, l₂, h1, h2, h3⟩ := ih
        refine ⟨y :: l₁, l₂, ?_, by simp [h2], ?_⟩
        · simp [stableInsert, h, h1]
        · intro z hz
          rcases List.mem_cons.mp hz with rfl | hz
          · simpa using h
          · exact h3 z hz

theorem stableInsert_perm (le : α → α → Bool) (x : α) (l : List α) :
    (stableInsert le x l).Perm (x :: l) := by
  obtain ⟨l₁, l₂, h1, h2, _⟩ := stableInsert_split le x l
  rw [h1, h2]
  exact (List.perm_middle)

theorem jsSort_perm (le : α → α → Bool) (l : List α) : (jsSort le l).Perm l := by
  induction l with
  | nil => simp [jsSort]
  | cons x xs ih =>
      exact (stableInsert_perm le x (jsSort le xs)).trans (ih.cons x)

theorem pairwise_stableInsert
    (htot : ∀ a b, le a b = true ∨ le b a = true)
    (htrans : ∀ a b c, le a b = true → le b c = true → le a c = true)
    (x : α) (l : List α) (hl : l.Pairwise (fun a b => le a b = true)) :
    (stableInsert le x l).Pairwise (fun a b => le a b = true) := by
  induction l with
  | nil => simp [stableInsert]
  | cons y ys ih =>
      rcases List.pairwise_cons.mp hl with ⟨hy, hys⟩
      by_cases h : le x y = true
      · rw [show stableInsert le x (y :: ys) = x :: y :: ys by simp [stableInsert, h]]
        refine List.pairwise_cons.mpr ⟨?_, hl⟩
        intro z hz
        rcases List.mem_cons.mp hz with rfl | hz
        · exact h
        · exact htrans x y z h (hy z hz)
      · have hyx : le y x = true := (htot x y).resolve_left h
        rw [show stableInsert le x (y :: ys) = y :: stableInsert le x ys by
          simp [stableInsert, h]]
        refine List.pairwise_cons.mpr ⟨?_, ih hys⟩
        intro z hz
        have hz2 := (stableInsert_perm le x ys).mem_iff.mp hz
        rcases List.mem_cons.mp hz2 with rfl | hz2
        · exact hyx
        · exact hy z hz2

theorem pairwise_jsSort
    (htot : ∀ a b, le a b = true ∨ le b a = true)
    (htrans : ∀ a b c, le a b = true → le b c = true → le a c = true)
    (l : List α) : (jsSort le l).Pairwise (fun a b => le a b = true) := by
  induction l with
  | nil => simp [jsSort]
  | cons x xs ih => exact pairwise_stableInsert htot htrans x (jsSort le xs) ih

theorem filter_stableInsert
    (hpc : ∀ a b, p a = true → le a b = false → p b = false)
    (x : α) (l : List α) :
    (stableInsert le x l).filter p
      = if p x then x :: l.filter p else l.filter p := by
  obtain ⟨l₁, l₂, h1, h2, h3⟩ := stableInsert_split le x l
  by_cases hx : p x = true
  · have hl₁ : l₁.filter p = [] := by
      rw [List.filter_eq_nil_iff]
      intro y hy
      simp [hpc x y hx (h3 y hy)]
    rw [h1, h2, List.filter_append, List.filter_append, hl₁]
    simp [hx]
  · rw [h1, h2, List.filter_append, List.filter_append]
    simp [hx]

theorem filter_jsSort
    (hpc : ∀ a b, p a = true → le a b = false → p b = false)
    (l : List α) : (jsSort le l).filter p = l.filter p := by
  induction l with
  | nil => rfl
  | cons x xs ih =>
      show (stableInsert le x (jsSort le xs)).filter p = _
      rw [filter_stableInsert hpc]
      by_cases hx : p x = true
      · simp [hx, ih]
      · simp [hx, ih]

end SortLemmas

section BasicLemmas

theorem role_beq_false {r : Role} (h : r ≠ Role.VIEWER) : (r == Role.VIEWER) = false :=
  beq_eq_false_iff_ne.mpr h

theorem find?_beq_of_mem_nodup {α : Type _} (key : α → Nat) {l : List α}
    (hnd : (l.map key).Nodup) {x : α} (hx : x ∈ l) :
    l.find? (fun y => key y == key x) = some x := by
  induction l with
  | nil => cases hx
  | cons y ys ih =>
      rcases List.nodup_cons.mp (by simpa only [List.map_cons] using hnd) with ⟨hy, hys⟩
      rcases List.mem_cons.mp hx with rfl | hx2
      · simp [List.find?_cons_of_pos]
      · have hne : key y ≠ key x := by
          intro he
          exact hy (he ▸ List.mem_map_of_mem key hx2)
        rw [List.find?_cons_of_neg _ (by simpa using hne)]
        exact ih hys hx2

end BasicLemmas

section OccupancyLemmas

theorem occRows_append (G : List Guest) (A B : List SeatingAssignment) (t : Nat) :
    occRows G (A ++ B) t = occRows G A t ++ occRows G B t := by
  simp [occRows, List.filter_append, List.filterMap_append]

theorem occSum_append (G : List Guest) (A B : List SeatingAssignment) (t : Nat) :
    occSum G (A ++ B) t = occSum G A t + occSum G B t := by
  simp [occSum, occRows_append]

theorem occSum_single (G : List Guest) (a : SeatingAssignment) (t : Nat) :
    occSum G [a] t = if a.tableId == t then headOf G a.guestId else 0 := by
  by_cases hat : (a.tableId == t) = true
  · rw [if_pos hat]
    simp only [occSum, occRows, List.filter_cons, hat, if_pos rfl]
    cases hfg : G.find? (fun g => g.id == a.guestId) with
    | none => simp [headOf, hfg]
    | some g => simp [headOf, hfg]
  · rw [if_neg hat]
    simp only [occSum, occRows, List.filter_cons]
    rw [if_neg hat]
    rfl

theorem occSum_cons (G : List Guest) (a : SeatingAssignment)
    (A : List SeatingAssignment) (t : Nat) :
    occSum G (a :: A) t
      = (if a.tableId == t then headOf G a.guestId else 0) + occSum G A t := by
  have h := occSum_append G [a] A t
  simpa [occSum_single] using h

theorem occSum_filter_le (G : List Guest) (A : List SeatingAssignment)
    (p : SeatingAssignment → Bool) (t : Nat) :
    occSum G (A.filter p) t ≤ occSum G A t := by
  induction A with
  | nil => simp [occSum, occRows]
  | cons a A ih =>
      rw [occSum_cons]
      by_cases hp : p a = true
      · rw [List.filter_cons_of_pos hp, occSum_cons]
        omega
      · rw [List.filter_cons_of_neg (by simpa using hp)]
        omega

theorem occSum_moveUpdate (G : List Guest) (A : List SeatingAssignment)
    (gid newTid uid : Nat)
    (hnd : (A.map (fun a => a.guestId)).Nodup) (r : SeatingAssignment)
    (hfind : A.find? (fun a => a.guestId == gid) = some r) (t : Nat) :
    occSum G (A.map (fun a => if a.guestId == gid
          then { a with tableId := newTid, assignedById := uid } else a)) t
        + (if r.tableId == t then headOf G gid else 0)
      = occSum G A t + (if newTid == t then headOf G gid else 0) := by
  induction A with
  | nil => cases hfind
  | cons a A ih =>
      rcases List.nodup_cons.mp (by simpa only [List.map_cons] using hnd) with ⟨ha, hA⟩
      by_cases hgg : (a.guestId == gid) = true
      · have hfa : List.find? (fun x => x.guestId == gid) (a :: A) = some a :=
          List.find?_cons_of_pos _ hgg
        rw [hfa] at hfind
        obtain rfl : a = r := Option.some.inj hfind
        have hAid : A.map (fun x => if x.guestId == gid
            then { x with tableId := newTid, assignedById := uid } else x) = A.map id := by
          apply List.map_congr_left
          intro x hxm
          have hxg : x.guestId ≠ gid := by
            intro he
            refine ha ?_
            have hm : x.guestId ∈ A.map (fun a => a.guestId) :=
              List.mem_map_of_mem (fun a => a.guestId) hxm
            rw [he, ← eq_of_beq hgg] at hm
            exact hm
          simp [hxg]
        rw [List.map_cons, if_pos hgg, hAid, List.map_id, occSum_cons, occSum_cons]
        have hrgid : a.guestId = gid := eq_of_beq hgg
        simp only [hrgid]
        omega
      · have hfa : List.find? (fun x => x.guestId == gid) (a :: A)
            = List.find? (fun x => x.guestId == gid) A :=
          List.find?_cons_of_neg _ (by simpa using hgg)
        rw [hfa] at hfind
        have := ih hA hfind
        rw [List.map_cons, if_neg (by simpa using hgg), occSum_cons, occSum_cons]
        omega

theorem occupiedSeats_eq_occSum (db : DB) (tableId : Nat) :
    occupiedSeats db tableId = occSum db.guests db.assignments tableId := rfl

theorem headOf_of_findGuest {db : DB} {gid : Nat} {g : Guest}
    (hg : findGuest db gid = some g) : headOf db.guests gid = g.headCount := by
  unfold findGuest at hg
  simp [headOf, hg]

end OccupancyLemmas

section OpShapeLemmas

theorem assign_ok_inv {db db2 : DB} {u gid tid : Nat} {a : SeatingAssignment}
    (h : assign db u gid tid = Except.ok (a, db2)) :
    ∃ g t, findGuest db gid = some g ∧ findAssignment db gid = none
      ∧ findTable db tid = some t
      ∧ occupiedSeats db tid + g.headCount ≤ t.capacity
      ∧ a = ⟨gid, tid, u⟩
      ∧ db2 = { db with assignments := db.assignments ++ [⟨gid, tid, u⟩] } := by
  unfold assign at h
  cases hg : findGuest db gid with
  | none =>
      simp only [hg] at h
      exact Except.noConfusion h
  | some g =>
      simp only [hg] at h
      cases hna : findAssignment db gid with
      | some r =>
          simp only [hna] at h
          exact Except.noConfusion h
      | none =>
          simp only [hna] at h
          cases ht : findTable db tid with
          | none =>
              simp only [ht] at h
              exact Except.noConfusion h
          | some t =>
              simp only [ht] at h
              cases hm : findMember db g.projectId u with
              | none =>
                  simp only [hm] at h
                  exact Except.noConfusion h
              | some m =>
                  simp only [hm] at h
                  cases hr : (m.role == Role.VIEWER) with
                  | true =>
                      simp only [hr, if_true] at h
                      exact Except.noConfusion h
                  | false =>
                      simp only [hr, Bool.false_eq_true, if_false] at h
                      by_cases hlt : t.capacity
                          < ((occupantGuests db tid).map (fun g => g.headCount)).sum
                            + g.headCount
                      · rw [if_pos hlt] at h
                        exact Except.noConfusion h
                      · rw [if_neg hlt] at h
                        cases hf : (constraintsOf db gid).find? (fun c =>
                            c.constraintType == ConstraintType.MUST_APART
                              && ((occupantGuests db tid).map
                                  (fun _ => (none : Option Nat))).contains
                                (some (otherMemberId c gid))) with
                        | some c =>
                            simp only [hf] at h
                            exact Except.noConfusion h
                        | none =>
                            simp only [hf] at h
                            simp only [Except.ok.injEq, Prod.mk.injEq] at h
                            obtain ⟨hai, hdb⟩ := h
                            exact ⟨g, t, rfl, rfl, rfl,
                              by simp only [occupiedSeats]; omega,
                              hai.symm, hdb.symm⟩

theorem unassign_ok_inv {db db2 : DB} {u gid : Nat}
    (h : unassign db u gid = Except.ok db2) :
    db2 = { db with assignments :=
        db.assignments.filter (fun a => !(a.guestId == gid)) } := by
  unfold unassign at h
  cases hg : findGuest db gid with
  | none =>
      simp only [hg] at h
      exact Except.noConfusion h
  | some g =>
      simp only [hg] at h
      cases hna : findAssignment db gid with
      | none =>
          simp only [hna] at h
          exact Except.noConfusion h
      | some r =>
          simp only [hna] at h
          cases hm : findMember db g.projectId u with
          | none =>
              simp only [hm] at h
              exact Except.noConfusion h
          | some m =>
              simp only [hm] at h
              cases hr : (m.role == Role.VIEWER) with
              | true =>
                  simp only [hr, if_true] at h
                  exact Except.noConfusion h
              | false =>
                  simp only [hr, Bool.false_eq_true, if_false] at h
                  exact (Except.ok.inj h).symm

theorem move_ok_inv {db db2 : DB} {u gid ntid : Nat}
    (h : move db u gid ntid = Except.ok db2) :
    ∃ g t, findGuest db gid = some g ∧ findTable db ntid = some t
      ∧ occupiedSeats db ntid + g.headCount ≤ t.capacity
      ∧ ((∃ r, findAssignment db gid = some r
            ∧ db2 = { db with assignments := db.assignments.map (fun a =>
                if a.guestId == gid
                  then { a with tableId := ntid, assignedById := u } else a) })
        ∨ (findAssignment db gid = none
            ∧ db2 = { db with assignments := db.assignments ++ [⟨gid, ntid, u⟩] })) := by
  unfold move at h
  cases hg : findGuest db gid with
  | none =>
      simp only [hg] at h
      exact Except.noConfusion h
  | some g =>
      simp only [hg] at h
      cases hm : findMember db g.projectId u with
      | none =>
          simp only [hm] at h
          exact Except.noConfusion h
      | some m =>
          simp only [hm] at h
          cases hr : (m.role == Role.VIEWER) with
          | true =>
              simp only [hr, if_true] at h
              exact Except.noConfusion h
          | false =>
              simp only [hr, Bool.false_eq_true, if_false] at h
              cases ht : findTable db ntid with
              | none =>
                  simp only [ht] at h
                  exact Except.noConfusion h
              | some t =>
                  simp only [ht] at h
                  by_cases hlt : t.capacity
                      < ((occupantGuests db ntid).map (fun g => g.headCount)).sum
                        + g.headCount
                  · rw [if_pos hlt] at h
                    exact Except.noConfusion h
                  · rw [if_neg hlt] at h
                    cases hf : ((constraintsOf db gid).filter (fun c =>
                        c.constraintType == ConstraintType.MUST_APART)).find? (fun c =>
                          ((occupantGuests db ntid).map (fun g => g.id)).contains
                            (otherMemberId c gid)) with
                    | some c =>
                        simp only [hf] at h
                        exact Except.noConfusion h
                    | none =>
                        simp only [hf] at h
                        refine ⟨g, t, rfl, rfl, by simp only [occupiedSeats]; omega, ?_⟩
                        cases hna : findAssignment db gid with
                        | some r =>
                            simp only [hna] at h
                            exact Or.inl ⟨r, rfl, (Except.ok.inj h).symm⟩
                        | none =>
                            simp only [hna] at h
                            exact Or.inr ⟨rfl, (Except.ok.inj h).symm⟩

theorem autoAssign_ok_inv {db db2 : DB} {u p : Nat} {r : AutoAssignResults}
    (h : autoAssign db u p = Except.ok (r, db2)) :
    r = ⟨(autoAssignLoop db u (unassignedGuestsOf db p)
          ⟨0, 0, [], tableStatesOf db p, []⟩).assigned,
        (autoAssignLoop db u (unassignedGuestsOf db p)
          ⟨0, 0, [], tableStatesOf db p, []⟩).failed,
        (autoAssignLoop db u (unassignedGuestsOf db p)
          ⟨0, 0, [], tableStatesOf db p, []⟩).details⟩
      ∧ db2 = dbPlus db (autoAssignLoop db u (unassignedGuestsOf db p)
          ⟨0, 0, [], tableStatesOf db p, []⟩).newAssignments := by
  unfold autoAssign at h
  cases hm : findMember db p u with
  | none =>
      simp only [hm] at h
      exact Except.noConfusion h
  | some m =>
      simp only [hm] at h
      cases hr : (m.role == Role.VIEWER) with
      | true =>
          simp only [hr, if_true] at h
          exact Except.noConfusion h
      | false =>
          simp only [hr, Bool.false_eq_true, if_false] at h
          simp only [Except.ok.injEq, Prod.mk.injEq] at h
          obtain ⟨hres, hdb⟩ := h
          exact ⟨hres.symm, hdb.symm⟩

theorem addConstraint_ok_inv
    {db db1 : DB} {u p g1 g2 : Nat} {ty : ConstraintType} {c : SeatingConstraint}
    (h : addConstraint db u p g1 g2 ty = Except.ok (c, db1)) :
    g1 ≠ g2 ∧ c = ⟨p, g1, g2, ty⟩
      ∧ db1 = { db with constraints := db.constraints ++ [c] } := by
  unfold addConstraint at h
  cases hgg : (g1 == g2) with
  | true =>
      simp only [hgg, if_true] at h
      exact Except.noConfusion h
  | false =>
      simp only [hgg, Bool.false_eq_true, if_false] at h
      cases hmem : findMember db p u with
      | none =>
          simp only [hmem] at h
          exact Except.noConfusion h
      | some m =>
          simp only [hmem] at h
          cases hr : (m.role == Role.VIEWER) with
          | true =>
              simp only [hr, if_true] at h
              exact Except.noConfusion h
          | false =>
              simp only [hr, Bool.false_eq_true, if_false] at h
              cases hf : db.constraints.find? (fun x =>
                  (x.guest1Id == g1 && x.guest2Id == g2)
                    || (x.guest1Id == g2 && x.guest2Id == g1)) with
              | some c0 =>
                  simp only [hf] at h
                  exact Except.noConfusion h
              | none =>
                  simp only [hf, Except.ok.injEq, Prod.mk.injEq] at h
                  obtain ⟨hc, hdb⟩ := h
                  subst hc
                  exact ⟨by simpa using hgg, rfl, hdb.symm⟩

theorem findTable_of_mem {db : DB} (htn : (db.tables.map (fun t => t.id)).Nodup)
    {t : DiningTable} (ht : t ∈ db.tables) : findTable db t.id = some t := by
  have h := find?_beq_of_mem_nodup (fun t => t.id) htn ht
  simpa [findTable] using h

theorem findGuest_of_mem {db : DB} (hgn : (db.guests.map (fun g => g.id)).Nodup)
    {g : Guest} (hg : g ∈ db.guests) : findGuest db g.id = some g := by
  have h := find?_beq_of_mem_nodup (fun g => g.id) hgn hg
  simpa [findGuest] using h

end OpShapeLemmas

section PreservationLemmas

theorem preserve_assign {db db2 : DB} {u gid tid : Nat} {a : SeatingAssignment}
    (hwf : WFdb db)
    (h : assign db u gid tid = Except.ok (a, db2)) :
    WFdb db2 ∧ (capacityOk db → capacityOk db2) := by
  obtain ⟨g, t, hg, hna, ht, hbound, ha, hdb2⟩ := assign_ok_inv h
  obtain ⟨hgn, htn, han⟩ := hwf
  subst hdb2
  have hfresh : ∀ x ∈ db.assignments, x.guestId ≠ gid := by
    intro x hx he
    have hh := List.find?_eq_none.mp hna x hx
    simp [he] at hh
  constructor
  · refine ⟨hgn, htn, ?_⟩
    rw [show ({ db with assignments := db.assignments ++ [⟨gid, tid, u⟩] } : DB).assignments
        = db.assignments ++ [⟨gid, tid, u⟩] from rfl]
    rw [List.map_append, List.nodup_append]
    refine ⟨han, by simp, ?_⟩
    intro x hx hx2
    simp only [List.map_cons, List.map_nil, List.mem_singleton] at hx2
    obtain ⟨y, hy, hyx⟩ := List.mem_map.mp hx
    exact hfresh y hy (by rw [hyx, hx2])
  · intro hcap t2 ht2
    have ht2m : t2 ∈ db.tables := ht2
    show occSum db.guests (db.assignments ++ [⟨gid, tid, u⟩]) t2.id ≤ t2.capacity
    rw [occSum_append, occSum_single]
    by_cases hid : (tid == t2.id) = true
    · rw [show ((⟨gid, tid, u⟩ : SeatingAssignment).tableId == t2.id) = true from hid,
        if_pos rfl]
      have htid : t2.id = tid := (eq_of_beq hid).symm
      have hfind2 : findTable db tid = some t2 := by
        rw [← htid]
        exact findTable_of_mem htn ht2m
      have ht2t : t2 = t := by
        rw [hfind2] at ht
        exact Option.some.inj ht
      have hw : headOf db.guests gid = g.headCount := headOf_of_findGuest hg
      rw [show ((⟨gid, tid, u⟩ : SeatingAssignment).guestId) = gid from rfl, hw, htid]
      rw [occupiedSeats_eq_occSum] at hbound
      rw [ht2t]
      omega
    · rw [if_neg (by simpa using hid)]
      have hc2 := hcap t2 ht2m
      rw [occupiedSeats_eq_occSum] at hc2
      omega

theorem preserve_unassign {db db2 : DB} {u gid : Nat}
    (hwf : WFdb db)
    (h : unassign db u gid = Except.ok db2) :
    WFdb db2 ∧ (capacityOk db → capacityOk db2) := by
  obtain ⟨hgn, htn, han⟩ := hwf
  have hdb2 := unassign_ok_inv h
  subst hdb2
  constructor
  · refine ⟨hgn, htn, ?_⟩
    have hsub : List.Sublist ((db.assignments.filter (fun a => !(a.guestId == gid))).map
          (fun a => a.guestId)) (db.assignments.map (fun a => a.guestId)) :=
      List.Sublist.map _ (List.filter_sublist db.assignments)
    exact hsub.nodup han
  · intro hcap t2 ht2
    have hc2 := hcap t2 ht2
    rw [occupiedSeats_eq_occSum] at hc2
    exact le_trans (occSum_filter_le _ _ _ _) hc2

theorem preserve_move {db db2 : DB} {u gid ntid : Nat}
    (hwf : WFdb db)
    (h : move db u gid ntid = Except.ok db2) :
    WFdb db2 ∧ (capacityOk db → capacityOk db2) := by
  obtain ⟨g, t, hg, ht, hbound, hbranch⟩ := move_ok_inv h
  obtain ⟨hgn, htn, han⟩ := hwf
  rcases hbranch with ⟨r, hfr, hdb2⟩ | ⟨hna, hdb2⟩
  · subst hdb2
    have hmapid : (db.assignments.map (fun a => if a.guestId == gid
          then { a with tableId := ntid, assignedById := u } else a)).map
            (fun a => a.guestId)
        = db.assignments.map (fun a => a.guestId) := by
      rw [List.map_map]
      apply List.map_congr_left
      intro x hxm
      by_cases hxg : (x.guestId == gid) = true
      · simp [Function.comp, hxg]
      · simp [Function.comp, hxg]
    constructor
    · refine ⟨hgn, htn, ?_⟩
      show ((db.assignments.map (fun a => if a.guestId == gid
          then { a with tableId := ntid, assignedById := u } else a)).map
            (fun a => a.guestId)).Nodup
      rw [hmapid]
      exact han
    · intro hcap t2 ht2
      have ht2m : t2 ∈ db.tables := ht2
      show occSum db.guests (db.assignments.map (fun a => if a.guestId == gid
            then { a with tableId := ntid, assignedById := u } else a)) t2.id ≤ t2.capacity
      have hkey := occSum_moveUpdate db.guests db.assignments gid ntid u han r hfr t2.id
      have hw : headOf db.guests gid = g.headCount := headOf_of_findGuest hg
      rw [hw] at hkey
      have hc2 := hcap t2 ht2m
      rw [occupiedSeats_eq_occSum] at hc2
      by_cases hid : (ntid == t2.id) = true
      · have htid : t2.id = ntid := (eq_of_beq hid).symm
        have hfind2 : findTable db ntid = some t2 := by
          rw [← htid]
          exact findTable_of_mem htn ht2m
        have ht2t : t2 = t := by
          rw [hfind2] at ht
          exact Option.some.inj ht
        rw [occupiedSeats_eq_occSum] at hbound
        rw [if_pos hid] at hkey
        rw [htid] at hkey ⊢
        rw [ht2t]
        omega
      · rw [if_neg (show ¬ ((ntid == t2.id) = true) by simpa using hid)] at hkey
        omega
  · subst hdb2
    have hfresh : ∀ x ∈ db.assignments, x.guestId ≠ gid := by
      intro x hx he
      have hh := List.find?_eq_none.mp hna x hx
      simp [he] at hh
    constructor
    · refine ⟨hgn, htn, ?_⟩
      rw [show ({ db with assignments := db.assignments ++ [⟨gid, ntid, u⟩] } : DB).assignments
          = db.assignments ++ [⟨gid, ntid, u⟩] from rfl]
      rw [List.map_append, List.nodup_append]
      refine ⟨han, by simp, ?_⟩
      intro x hx hx2
      simp only [List.map_cons, List.map_nil, List.mem_singleton] at hx2
      obtain ⟨y, hy, hyx⟩ := List.mem_map.mp hx
      exact hfresh y hy (by rw [hyx, hx2])
    · intro hcap t2 ht2
      have ht2m : t2 ∈ db.tables := ht2
      show occSum db.guests (db.assignments ++ [⟨gid, ntid, u⟩]) t2.id ≤ t2.capacity
      rw [occSum_append, occSum_single]
      by_cases hid : (ntid == t2.id) = true
      · rw [show ((⟨gid, ntid, u⟩ : SeatingAssignment).tableId == t2.id) = true from hid,
          if_pos rfl]
        have htid : t2.id = ntid := (eq_of_beq hid).symm
        have hfind2 : findTable db ntid = some t2 := by
          rw [← htid]
          exact findTable_of_mem htn ht2m
        have ht2t : t2 = t := by
          rw [hfind2] at ht
          exact Option.some.inj ht
        have hw : headOf db.guests gid = g.headCount := headOf_of_findGuest hg
        rw [show ((⟨gid, ntid, u⟩ : SeatingAssignment).guestId) = gid from rfl, hw, htid]
        rw [occupiedSeats_eq_occSum] at hbound
        rw [ht2t]
        omega
      · rw [if_neg (by simpa using hid)]
        have hc2 := hcap t2 ht2m
        rw [occupiedSeats_eq_occSum] at hc2
        omega

theorem preserve_addConstraint {db db2 : DB} {u p g1 g2 : Nat}
    {ty : ConstraintType} {c : SeatingConstraint}
    (hwf : WFdb db)
    (h : addConstraint db u p g1 g2 ty = Except.ok (c, db2)) :
    WFdb db2 ∧ (capacityOk db → capacityOk db2) := by
  obtain ⟨hne, hc, hdb2⟩ := addConstraint_ok_inv h
  subst hdb2
  exact ⟨hwf, fun hcap => hcap⟩

end PreservationLemmas

section PickBestLemmas

theorem autoScore_nonneg (g : Guest) (t : TableState) : 0 ≤ autoScore g t := by
  unfold autoScore
  positivity

theorem pickBestAux_cons (guest : Guest) (cs : List SeatingConstraint)
    (i : Nat) (t : TableState) (rest : List (Nat × TableState))
    (best : Option (Nat × TableState) × Int) :
    pickBestAux guest cs ((i, t) :: rest) best
      = if availableOf t < (guest.headCount : Int) then pickBestAux guest cs rest best
        else if hasApartConflict cs guest.id (t.occupants.map (fun g => g.id)) then
          pickBestAux guest cs rest best
        else if best.2 < autoScore guest t then
          pickBestAux guest cs rest (some (i, t), autoScore guest t)
        else pickBestAux guest cs rest best := rfl

theorem pickBestAux_all_skip (guest : Guest) (cs : List SeatingConstraint)
    (l : List (Nat × TableState)) :
    ∀ best, (∀ q ∈ l, skipsTable guest cs q.2) → pickBestAux guest cs l best = best := by
  induction l with
  | nil =>
      intro best _
      rfl
  | cons q0 rest ih =>
      intro best h
      obtain ⟨i, t⟩ := q0
      have hh := h (i, t) (List.mem_cons_self _ _)
      rw [pickBestAux_cons]
      by_cases h1 : availableOf t < (guest.headCount : Int)
      · rw [if_pos h1]
        exact ih best (fun q hq => h q (List.mem_cons_of_mem _ hq))
      · rw [if_neg h1]
        have h2 : hasApartConflict cs guest.id (t.occupants.map (fun g => g.id)) = true := by
          rcases hh with ha | hb
          · exact absurd ha h1
          · exact hb
        rw [if_pos h2]
        exact ih best (fun q hq => h q (List.mem_cons_of_mem _ hq))

theorem pickBestAux_isSome (guest : Guest) (cs : List SeatingConstraint)
    (l : List (Nat × TableState)) :
    ∀ best, best.1.isSome = true → (pickBestAux guest cs l best).1.isSome = true := by
  induction l with
  | nil =>
      intro best h
      exact h
  | cons q0 rest ih =>
      intro best h
      obtain ⟨i, t⟩ := q0
      rw [pickBestAux_cons]
      by_cases h1 : availableOf t < (guest.headCount : Int)
      · rw [if_pos h1]
        exact ih best h
      · rw [if_neg h1]
        by_cases h2 : hasApartConflict cs guest.id (t.occupants.map (fun g => g.id)) = true
        · rw [if_pos h2]
          exact ih best h
        · rw [if_neg h2]
          by_cases h3 : best.2 < autoScore guest t
          · rw [if_pos h3]
            exact ih _ (by simp)
          · rw [if_neg h3]
            exact ih best h

theorem pickBestAux_none_skip (guest : Guest) (cs : List SeatingConstraint)
    (l : List (Nat × TableState)) :
    ∀ best, (best.1 = none → best.2 = -1) →
    (pickBestAux guest cs l best).1 = none → ∀ q ∈ l, skipsTable guest cs q.2 := by
  induction l with
  | nil =>
      intro best _ _ q hq
      cases hq
  | cons q0 rest ih =>
      intro best hacc h q hq
      obtain ⟨i, t⟩ := q0
      rw [pickBestAux_cons] at h
      by_cases h1 : availableOf t < (guest.headCount : Int)
      · rw [if_pos h1] at h
        rcases List.mem_cons.mp hq with rfl | hq2
        · exact Or.inl h1
        · exact ih best hacc h q hq2
      · rw [if_neg h1] at h
        by_cases h2 : hasApartConflict cs guest.id (t.occupants.map (fun g => g.id)) = true
        · rw [if_pos h2] at h
          rcases List.mem_cons.mp hq with rfl | hq2
          · exact Or.inr h2
          · exact ih best hacc h q hq2
        · rw [if_neg h2] at h
          exfalso
          by_cases h3 : best.2 < autoScore guest t
          · rw [if_pos h3] at h
            have hs := pickBestAux_isSome guest cs rest
              (some (i, t), autoScore guest t) (by simp)
            rw [h] at hs
            simp at hs
          · rw [if_neg h3] at h
            cases hb : best.1 with
            | none =>
                have hb2 := hacc hb
                have hs0 := autoScore_nonneg guest t
                omega
            | some c =>
                have hs := pickBestAux_isSome guest cs rest best (by simp [hb])
                rw [h] at hs
                simp at hs

theorem pickBestAux_some_char (guest : Guest) (cs : List SeatingConstraint)
    (l : List (Nat × TableState)) :
    ∀ best, (best.1 = none → best.2 = -1) →
    ∀ q s, pickBestAux guest cs l best = (some q, s) →
    (best = (some q, s) ∧ ∀ p ∈ l, ¬ skipsTable guest cs p.2 → autoScore guest p.2 ≤ s)
    ∨ (∃ l₁ l₂, l = l₁ ++ q :: l₂ ∧ ¬ skipsTable guest cs q.2 ∧ s = autoScore guest q.2
        ∧ (∀ p ∈ l₁, ¬ skipsTable guest cs p.2 → autoScore guest p.2 < s)
        ∧ best.2 < s
        ∧ (∀ p ∈ l₂, ¬ skipsTable guest cs p.2 → autoScore guest p.2 ≤ s)) := by
  induction l with
  | nil =>
      intro best _ q s h
      left
      exact ⟨h, by intro p hp; cases hp⟩
  | cons q0 rest ih =>
      intro best hacc q s h
      obtain ⟨i, t⟩ := q0
      rw [pickBestAux_cons] at h
      by_cases h1 : availableOf t < (guest.headCount : Int)
      · rw [if_pos h1] at h
        rcases ih best hacc q s h with ⟨hb, hall⟩ | ⟨l₁, l₂, hdec, hq, hs, hl1, hlt, hl2⟩
        · left
          refine ⟨hb, ?_⟩
          intro p hp hskip
          rcases List.mem_cons.mp hp with rfl | hp2
          · exact absurd (Or.inl h1) hskip
          · exact hall p hp2 hskip
        · right
          refine ⟨(i, t) :: l₁, l₂, by rw [hdec]; rfl, hq, hs, ?_, hlt, hl2⟩
          intro p hp hskip
          rcases List.mem_cons.mp hp with rfl | hp2
          · exact absurd (Or.inl h1) hskip
          · exact hl1 p hp2 hskip
      · rw [if_neg h1] at h
        by_cases h2 : hasApartConflict cs guest.id (t.occupants.map (fun g => g.id)) = true
        · rw [if_pos h2] at h
          rcases ih best hacc q s h with ⟨hb, hall⟩ | ⟨l₁, l₂, hdec, hq, hs, hl1, hlt, hl2⟩
          · left
            refine ⟨hb, ?_⟩
            intro p hp hskip
            rcases List.mem_cons.mp hp with rfl | hp2
            · exact absurd (Or.inr h2) hskip
            · exact hall p hp2 hskip
          · right
            refine ⟨(i, t) :: l₁, l₂, by rw [hdec]; rfl, hq, hs, ?_, hlt, hl2⟩
            intro p hp hskip
            rcases List.mem_cons.mp hp with rfl | hp2
            · exact absurd (Or.inr h2) hskip
            · exact hl1 p hp2 hskip
        · rw [if_neg h2] at h
          have hnskip : ¬ skipsTable guest cs t := by
            intro hsk
            rcases hsk with ha | hb
            · exact h1 ha
            · exact h2 hb
          by_cases h3 : best.2 < autoScore guest t
          · rw [if_pos h3] at h
            rcases ih (some (i, t), autoScore guest t) (by simp) q s h with
              ⟨hb, hall⟩ | ⟨l₁, l₂, hdec, hq, hs, hl1, hlt, hl2⟩
            · have hbq : some (i, t) = some q := congrArg Prod.fst hb
              have hbs : autoScore guest t = s := congrArg Prod.snd hb
              obtain rfl : (i, t) = q := Option.some.inj hbq
              right
              refine ⟨[], rest, rfl, hnskip, hbs.symm, ?_, ?_, ?_⟩
              · intro p hp
                cases hp
              · omega
              · exact hall
            · have hlt2 : autoScore guest t < s := hlt
              right
              refine ⟨(i, t) :: l₁, l₂, by rw [hdec]; rfl, hq, hs, ?_, ?_, hl2⟩
              · intro p hp hskip
                rcases List.mem_cons.mp hp with rfl | hp2
                · show autoScore guest t < s
                  exact hlt2
                · exact hl1 p hp2 hskip
              · omega
          · rw [if_neg h3] at h
            cases hbb : best.1 with
            | none =>
                exfalso
                have hb2 := hacc hbb
                have hs0 := autoScore_nonneg guest t
                omega
            | some c =>
                rcases ih best hacc q s h with ⟨hb, hall⟩ | ⟨l₁, l₂, hdec, hq, hsx, hl1, hlt, hl2⟩
                · left
                  refine ⟨hb, ?_⟩
                  intro p hp hskip
                  rcases List.mem_cons.mp hp with rfl | hp2
                  · have hbs : best.2 = s := by rw [hb]
                    show autoScore guest t ≤ s
                    omega
                  · exact hall p hp2 hskip
                · right
                  refine ⟨(i, t) :: l₁, l₂, by rw [hdec]; rfl, hq, hsx, ?_, hlt, hl2⟩
                  intro p hp hskip
                  rcases List.mem_cons.mp hp with rfl | hp2
                  · show autoScore guest t < s
                    omega
                  · exact hl1 p hp2 hskip

theorem enum_snd_mem {α : Type _} {l : List α} {q : Nat × α} (h : q ∈ l.enum) :
    q.2 ∈ l := by
  rw [List.mem_enum_iff_getElem?] at h
  exact List.getElem?_mem h

theorem pickBest_none_iff (guest : Guest) (cs : List SeatingConstraint)
    (T : List TableState) :
    (pickBest guest cs T).1 = none ↔ ∀ t ∈ T, skipsTable guest cs t := by
  constructor
  · intro h t ht
    obtain ⟨j, hj, rfl⟩ := List.mem_iff_getElem.mp ht
    have hq : (j, T[j]) ∈ T.enum := by
      rw [List.mem_enum_iff_getElem?]
      simp [List.getElem?_eq_getElem, hj]
    exact pickBestAux_none_skip guest cs T.enum (none, -1) (fun _ => rfl) h (j, T[j]) hq
  · intro h
    have hall : pickBestAux guest cs T.enum (none, -1) = (none, -1) :=
      pickBestAux_all_skip _ _ _ _ (fun q hq => h q.2 (enum_snd_mem hq))
    rw [pickBest, hall]

theorem pickBest_some_spec (guest : Guest) (cs : List SeatingConstraint)
    (T : List TableState) {i : Nat} {bt : TableState} {s : Int}
    (h : pickBest guest cs T = (some (i, bt), s)) :
    ∃ hi : i < T.length, T[i] = bt ∧ ¬ skipsTable guest cs bt ∧ s = autoScore guest bt
      ∧ (∀ j, (hj : j < T.length) → ¬ skipsTable guest cs (T[j])
          → autoScore guest (T[j]) ≤ s)
      ∧ (∀ j, (hj : j < T.length) → j < i → ¬ skipsTable guest cs (T[j])
          → autoScore guest (T[j]) < s) := by
  rcases pickBestAux_some_char guest cs T.enum (none, -1) (fun _ => rfl) (i, bt) s h with
    ⟨hb, _⟩ | ⟨l₁, l₂, hdec, hq, hs, hl1, _, hl2⟩
  · exact absurd (congrArg Prod.fst hb) (by simp)
  · have hlen : T.enum.length = T.length := List.enum_length
    have hlen2 : l₁.length + (l₂.length + 1) = T.length := by
      rw [← hlen, hdec]
      simp
    have hl1len : l₁.length < T.length := by omega
    have hjunc : T.enum[l₁.length]? = some (i, bt) := by
      rw [hdec, List.getElem?_append_right (le_refl l₁.length)]
      simp
    have hjunc2 : T.enum[l₁.length]? = some (l₁.length, T[l₁.length]) := by
      rw [List.getElem?_eq_getElem (by rw [hlen]; exact hl1len)]
      rw [List.getElem_enum]
    have hpair : (i, bt) = (l₁.length, T[l₁.length]) :=
      Option.some.inj (hjunc.symm.trans hjunc2)
    have hil : i = l₁.length := congrArg Prod.fst hpair
    have hbt : T[i] = bt := by
      subst hil
      exact (congrArg Prod.snd hpair).symm
    have hmem? : ∀ j, (hj : j < T.length) → T.enum[j]? = some (j, T[j]) := by
      intro j hj
      rw [List.getElem?_eq_getElem (by rw [hlen]; exact hj)]
      rw [List.getElem_enum]
    have hi : i < T.length := by omega
    refine ⟨hi, hbt, ?_, ?_, ?_, ?_⟩
    · show ¬ skipsTable guest cs (i, bt).2
      exact hq
    · show s = autoScore guest (i, bt).2
      exact hs
    · intro j hj hns
      have hmj : (j, T[j]) ∈ T.enum := List.getElem?_mem (hmem? j hj)
      rw [hdec] at hmj
      rcases List.mem_append.mp hmj with hin1 | hin2
      · have hx := hl1 (j, T[j]) hin1 hns
        exact le_of_lt hx
      · rcases List.mem_cons.mp hin2 with he | hin3
        · have hjb : T[j] = bt := congrArg Prod.snd he
          have hsc : s = autoScore guest bt := hs
          rw [hjb, ← hsc]
        · exact hl2 (j, T[j]) hin3 hns
    · intro j hj hji hns
      have hjl : j < l₁.length := by omega
      have hq1 : T.enum[j]? = l₁[j]? := by
        rw [hdec]
        rw [List.getElem?_append]
        rw [if_pos hjl]
      have hl1j : l₁[j]? = some (j, T[j]) := by
        rw [← hq1]
        exact hmem? j hj
      have hmemj : (j, T[j]) ∈ l₁ := List.getElem?_mem hl1j
      exact hl1 (j, T[j]) hmemj hns

end PickBestLemmas

section AutoAssignLoopLemmas

theorem autoAssignStep_none (db : DB) (u : Nat) (st : AAState) (g : Guest)
    (h : (pickBest g (allConstraintsOf db g.id) st.tables).1 = none) :
    autoAssignStep db u st g
      = { st with
          failed := st.failed + 1
          details := st.details ++ [⟨g.name, none, some "没有合适的桌位"⟩] } := by
  cases hpb : pickBest g (allConstraintsOf db g.id) st.tables with
  | mk o s =>
      rw [hpb] at h
      subst h
      simp only [autoAssignStep, hpb]

theorem autoAssignStep_some (db : DB) (u : Nat) (st : AAState) (g : Guest)
    (i : Nat) (bt : TableState) (s : Int)
    (h : pickBest g (allConstraintsOf db g.id) st.tables = (some (i, bt), s)) :
    autoAssignStep db u st g
      = { assigned := st.assigned + 1, failed := st.failed,
          details := st.details ++ [⟨g.name, some bt.name, none⟩],
          tables := st.tables.set i
            { bt with occupants := bt.occupants ++ [toOccGuest g] },
          newAssignments := st.newAssignments ++ [⟨g.id, bt.id, u⟩] } := by
  simp only [autoAssignStep, h]

theorem TableExt_refl (t : TableState) : TableExt t t :=
  ⟨rfl, rfl, rfl, [], by simp⟩

theorem TableExt_trans {t1 t2 t3 : TableState}
    (h1 : TableExt t1 t2) (h2 : TableExt t2 t3) : TableExt t2 t3 → TableExt t1 t3 := by
  intro _
  obtain ⟨hi1, hn1, hc1, e1, he1⟩ := h1
  obtain ⟨hi2, hn2, hc2, e2, he2⟩ := h2
  exact ⟨hi2.trans hi1, hn2.trans hn1, hc2.trans hc1, e1 ++ e2,
    by rw [he2, he1, List.append_assoc]⟩

theorem TablesExt_refl (T : List TableState) : TablesExt T T := by
  rw [TablesExt, List.forall₂_same]
  intro x _
  exact TableExt_refl x

theorem TablesExt_trans {T1 T2 T3 : List TableState}
    (h1 : TablesExt T1 T2) (h2 : TablesExt T2 T3) : TablesExt T1 T3 := by
  induction h1 generalizing T3 with
  | nil =>
      cases h2
      exact List.Forall₂.nil
  | cons hx hrest ih =>
      cases h2 with
      | cons hy hrest2 =>
          exact List.Forall₂.cons (TableExt_trans hx hy hy) (ih hrest2)

theorem TablesExt_mem {T T2 : List TableState} (h : TablesExt T T2) :
    ∀ t2 ∈ T2, ∃ t ∈ T, TableExt t t2 := by
  induction h with
  | nil =>
      intro t2 ht2
      cases ht2
  | cons hx hrest ih =>
      intro t2 ht2
      rcases List.mem_cons.mp ht2 with rfl | ht3
      · exact ⟨_, List.mem_cons_self _ _, hx⟩
      · obtain ⟨t, htm, hte⟩ := ih t2 ht3
        exact ⟨t, List.mem_cons_of_mem _ htm, hte⟩

theorem TablesExt_ids {T T2 : List TableState} (h : TablesExt T T2) :
    T2.map (fun ts => ts.id) = T.map (fun ts => ts.id) := by
  induction h with
  | nil => rfl
  | cons hx hrest ih =>
      simp only [List.map_cons, ih]
      rw [hx.1]

theorem TablesExt_set {T : List TableState} {i : Nat} {x : TableState}
    (hi : i < T.length) (hx : TableExt (T.get ⟨i, hi⟩) x) :
    TablesExt T (T.set i x) := by
  induction T generalizing i with
  | nil => cases hi
  | cons t rest ih =>
      cases i with
      | zero =>
          exact List.Forall₂.cons hx (TablesExt_refl rest)
      | succ j =>
          exact List.Forall₂.cons (TableExt_refl t)
            (ih (Nat.lt_of_succ_lt_succ hi) hx)

theorem occupiedOf_ext {t t2 : TableState} (h : TableExt t t2) :
    occupiedOf t ≤ occupiedOf t2 := by
  obtain ⟨_, _, _, e, he⟩ := h
  rw [occupiedOf, occupiedOf, he, List.map_append, List.sum_append]
  omega

theorem hasApartConflict_mono (cs : List SeatingConstraint) (gid : Nat)
    {ids : List Nat} (extra : List Nat)
    (h : hasApartConflict cs gid ids = true) :
    hasApartConflict cs gid (ids ++ extra) = true := by
  rw [hasApartConflict, List.any_eq_true] at h ⊢
  obtain ⟨c, hc, hcond⟩ := h
  refine ⟨c, hc, ?_⟩
  rw [Bool.and_eq_true] at hcond ⊢
  refine ⟨hcond.1, ?_⟩
  have h2 := hcond.2
  rw [List.contains_eq_any_beq, List.any_eq_true] at h2 ⊢
  obtain ⟨y, hy, hxy⟩ := h2
  exact ⟨y, List.mem_append_left _ hy, hxy⟩

theorem skipsTable_mono (g : Guest) (cs : List SeatingConstraint)
    {t t2 : TableState} (hext : TableExt t t2)
    (h : skipsTable g cs t) : skipsTable g cs t2 := by
  rcases h with h1 | h2
  · left
    have hocc := occupiedOf_ext hext
    rw [availableOf] at h1 ⊢
    rw [hext.2.2.1]
    omega
  · right
    obtain ⟨_, _, _, e, he⟩ := hext
    rw [he, List.map_append]
    exact hasApartConflict_mono cs g.id _ h2

theorem pickBest_none_of_ext (g : Guest) (cs : List SeatingConstraint)
    {T T2 : List TableState} (hext : TablesExt T T2)
    (h : (pickBest g cs T).1 = none) : (pickBest g cs T2).1 = none := by
  rw [pickBest_none_iff] at h ⊢
  intro t2 ht2
  obtain ⟨t, htm, hte⟩ := TablesExt_mem hext t2 ht2
  exact skipsTable_mono g cs hte (h t htm)

theorem occRows_single (G : List Guest) (a : SeatingAssignment) (t : Nat) :
    occRows G [a] t = if a.tableId == t
      then (G.find? (fun g => g.id == a.guestId)).toList else [] := by
  by_cases hat : (a.tableId == t) = true
  · rw [if_pos hat]
    simp only [occRows, List.filter_cons, hat, if_pos rfl]
    cases hfg : G.find? (fun g => g.id == a.guestId) with
    | none => simp [hfg]
    | some g => simp [hfg]
  · rw [if_neg hat]
    simp only [occRows, List.filter_cons]
    rw [if_neg hat]
    rfl

theorem dbPlus_nil (db : DB) : dbPlus db [] = db := by
  simp [dbPlus]

theorem dbPlus_append (db : DB) (A B : List SeatingAssignment) :
    dbPlus db (A ++ B) = dbPlus (dbPlus db A) B := by
  simp [dbPlus]

theorem tableStatesOf_append_row (db : DB) (p : Nat) (row : SeatingAssignment)
    (g : Guest) (hg : db.guests.find? (fun x => x.id == row.guestId) = some g) :
    tableStatesOf (dbPlus db [row]) p
      = (tableStatesOf db p).map (fun ts =>
          if row.tableId == ts.id
            then { ts with occupants := ts.occupants ++ [toOccGuest g] } else ts) := by
  unfold tableStatesOf dbPlus
  rw [List.map_map]
  apply List.map_congr_left
  intro t htm
  simp only [Function.comp, occupantGuests]
  by_cases hrow : (row.tableId == t.id) = true
  · rw [if_pos hrow]
    have hocc : occRows db.guests (db.assignments ++ [row]) t.id
        = occRows db.guests db.assignments t.id ++ [g] := by
      rw [occRows_append, occRows_single, if_pos hrow, hg]
      rfl
    rw [hocc, List.map_append]
    rfl
  · rw [if_neg hrow]
    have hocc : occRows db.guests (db.assignments ++ [row]) t.id
        = occRows db.guests db.assignments t.id := by
      rw [occRows_append, occRows_single, if_neg hrow, List.append_nil]
    rw [hocc]

theorem tableStatesOf_ids (db : DB) (p : Nat) :
    (tableStatesOf db p).map (fun ts => ts.id)
      = (db.tables.filter (fun t => t.projectId == p)).map (fun t => t.id) := by
  unfold tableStatesOf
  rw [List.map_map]
  rfl

theorem tableStatesOf_ids_nodup (db : DB) (p : Nat)
    (htn : (db.tables.map (fun t => t.id)).Nodup) :
    ((tableStatesOf db p).map (fun ts => ts.id)).Nodup := by
  rw [tableStatesOf_ids]
  have hsub : List.Sublist ((db.tables.filter (fun t => t.projectId == p)).map
        (fun t => t.id)) (db.tables.map (fun t => t.id)) :=
    List.Sublist.map _ (List.filter_sublist db.tables)
  exact hsub.nodup htn

theorem map_ite_eq_set (l : List TableState)
    (hnd : (l.map (fun ts => ts.id)).Nodup) (i : Nat) (hi : i < l.length)
    (f : TableState → TableState) :
    l.map (fun ts => if (l.get ⟨i, hi⟩).id == ts.id then f ts else ts)
      = l.set i (f (l.get ⟨i, hi⟩)) := by
  induction l generalizing i with
  | nil => cases hi
  | cons x xs ih =>
      rcases List.nodup_cons.mp (by simpa only [List.map_cons] using hnd) with ⟨hx, hxs⟩
      cases i with
      | zero =>
          show (x :: xs).map (fun ts => if x.id == ts.id then f ts else ts)
            = f x :: xs
          rw [List.map_cons, if_pos (by simp)]
          have hrest : ∀ ts ∈ xs, (if x.id == ts.id then f ts else ts) = ts := by
            intro ts hts
            rw [if_neg]
            intro hbeq
            refine hx ?_
            have : ts.id ∈ xs.map (fun ts => ts.id) := List.mem_map_of_mem _ hts
            rw [← eq_of_beq hbeq] at this
            exact this
          have hxsid : xs.map (fun ts => if x.id == ts.id then f ts else ts) = xs := by
            calc xs.map (fun ts => if x.id == ts.id then f ts else ts)
                = xs.map (fun ts => ts) := List.map_congr_left hrest
              _ = xs := List.map_id' xs
          rw [hxsid]
      | succ j =>
          have hj : j < xs.length := Nat.lt_of_succ_lt_succ hi
          show (x :: xs).map (fun ts => if (xs.get ⟨j, hj⟩).id == ts.id then f ts else ts)
            = x :: xs.set j (f (xs.get ⟨j, hj⟩))
          rw [List.map_cons, if_neg]
          · rw [ih hxs j hj]
          · intro hbeq
            refine hx ?_
            have : (xs.get ⟨j, hj⟩).id ∈ xs.map (fun ts => ts.id) :=
              List.mem_map_of_mem _ (List.get_mem xs j hj)
            rw [eq_of_beq hbeq] at this
            exact this

theorem tableStatesOf_mem_inv {db : DB} {p : Nat} {ts : TableState}
    (hts : ts ∈ tableStatesOf db p) :
    ∃ t ∈ db.tables, (t.projectId == p) = true ∧ ts.id = t.id ∧ ts.capacity = t.capacity
      ∧ occupiedOf ts = occupiedSeats db t.id := by
  unfold tableStatesOf at hts
  obtain ⟨t, htf, rfl⟩ := List.mem_map.mp hts
  have htm := List.mem_filter.mp htf
  refine ⟨t, htm.1, htm.2, rfl, rfl, ?_⟩
  show ((((occupantGuests db t.id).map toOccGuest)).map (fun o => o.headCount)).sum = _
  rw [List.map_map]
  rfl

theorem tableStatesOf_mem_of_table {db : DB} {p : Nat} {t : DiningTable}
    (ht : t ∈ db.tables) (hp : (t.projectId == p) = true) :
    (⟨t.id, t.name, t.capacity, (occupantGuests db t.id).map toOccGuest⟩ : TableState)
      ∈ tableStatesOf db p := by
  unfold tableStatesOf
  exact List.mem_map_of_mem _ (List.mem_filter.mpr ⟨ht, hp⟩)

theorem occSum_zero_of_no_row (G : List Guest) (ns : List SeatingAssignment) (tid : Nat)
    (h : ∀ a ∈ ns, ¬ ((a.tableId == tid) = true)) : occSum G ns tid = 0 := by
  unfold occSum occRows
  have hfil : ns.filter (fun a => a.tableId == tid) = [] :=
    List.filter_eq_nil_iff.mpr h
  rw [hfil]
  rfl

theorem AAInv_step (db : DB) (p u : Nat) (st : AAState) (g : Guest)
    (hwfg : (db.guests.map (fun x => x.id)).Nodup)
    (hwft : (db.tables.map (fun t => t.id)).Nodup)
    (hinv : AAInv db p st)
    (hgm : g ∈ db.guests)
    (hfree : findAssignment (dbPlus db st.newAssignments) g.id = none) :
    AAInv db p (autoAssignStep db u st g)
      ∧ (tablesCapOk st.tables → tablesCapOk (autoAssignStep db u st g).tables)
      ∧ TablesExt st.tables (autoAssignStep db u st g).tables
      ∧ ∃ ns2, (autoAssignStep db u st g).newAssignments = st.newAssignments ++ ns2
          ∧ (∀ a ∈ ns2, a.guestId = g.id)
          ∧ (∀ a ∈ ns2, a.tableId ∈ st.tables.map (fun ts => ts.id))
          ∧ ((∃ a ∈ ns2, a.guestId = g.id)
              ∨ ((pickBest g (allConstraintsOf db g.id) st.tables).1 = none
                  ∧ (autoAssignStep db u st g).tables = st.tables)) := by
  obtain ⟨hmir, hnd⟩ := hinv
  cases hpb : pickBest g (allConstraintsOf db g.id) st.tables with
  | mk o s =>
      cases o with
      | none =>
          have hstep := autoAssignStep_none db u st g (by rw [hpb])
          rw [hstep]
          refine ⟨⟨hmir, hnd⟩, fun hc => hc, TablesExt_refl _,
            [], by simp, by simp, by simp, Or.inr ⟨rfl, rfl⟩⟩
      | some q =>
          obtain ⟨i, bt⟩ := q
          have hspec := pickBest_some_spec g (allConstraintsOf db g.id) st.tables hpb
          obtain ⟨hi, hbt, hnskip, hsv, _, _⟩ := hspec
          have hstep := autoAssignStep_some db u st g i bt s hpb
          rw [hstep]
          have hget : st.tables.get ⟨i, hi⟩ = bt := by
            rw [List.get_eq_getElem]
            exact hbt
          have hrowg : findGuest db g.id = some g := findGuest_of_mem hwfg hgm
          have hfresh : ∀ x ∈ db.assignments ++ st.newAssignments, x.guestId ≠ g.id := by
            intro x hx he
            have hh := List.find?_eq_none.mp hfree x hx
            simp [he] at hh
          have hidn : (st.tables.map (fun ts => ts.id)).Nodup := by
            rw [hmir]
            exact tableStatesOf_ids_nodup _ _ hwft
          have hmir2 : st.tables.set i
              { bt with occupants := bt.occupants ++ [toOccGuest g] }
              = tableStatesOf (dbPlus db (st.newAssignments ++ [⟨g.id, bt.id, u⟩])) p := by
            rw [dbPlus_append]
            rw [tableStatesOf_append_row (dbPlus db st.newAssignments) p
              ⟨g.id, bt.id, u⟩ g hrowg]
            rw [← hmir]
            rw [show (⟨g.id, bt.id, u⟩ : SeatingAssignment).tableId = bt.id from rfl]
            rw [← hget]
            rw [map_ite_eq_set st.tables hidn i hi
              (fun ts => { ts with occupants := ts.occupants ++ [toOccGuest g] })]
          refine ⟨⟨?_, ?_⟩, ?_, ?_, [⟨g.id, bt.id, u⟩], rfl, ?_, ?_, ?_⟩
          · exact hmir2
          · show ((db.assignments
                ++ (st.newAssignments ++ [(⟨g.id, bt.id, u⟩ : SeatingAssignment)])).map
              (fun a => a.guestId)).Nodup
            rw [← List.append_assoc, List.map_append, List.nodup_append]
            refine ⟨hnd, by simp, ?_⟩
            intro x hx hx2
            simp only [List.map_cons, List.map_nil, List.mem_singleton] at hx2
            obtain ⟨y, hy, hyx⟩ := List.mem_map.mp hx
            exact hfresh y hy (by rw [hyx, hx2])
          · intro hcapT ts hts
            rcases List.mem_or_eq_of_mem_set hts with hmem | rfl
            · exact hcapT ts hmem
            · show occupiedOf { bt with occupants := bt.occupants ++ [toOccGuest g] }
                ≤ bt.capacity
              have hav : ¬ (availableOf bt < (g.headCount : Int)) := by
                intro hc
                exact hnskip (Or.inl hc)
              rw [availableOf] at hav
              rw [occupiedOf]
              show ((bt.occupants ++ [toOccGuest g]).map (fun o => o.headCount)).sum
                ≤ bt.capacity
              rw [List.map_append, List.sum_append]
              show (bt.occupants.map (fun o => o.headCount)).sum + g.headCount
                ≤ bt.capacity
              have hoc : occupiedOf bt = (bt.occupants.map (fun o => o.headCount)).sum :=
                rfl
              omega
          · refine TablesExt_set hi ?_
            rw [hget]
            exact ⟨rfl, rfl, rfl, [toOccGuest g], rfl⟩
          · intro a ha
            rcases List.mem_singleton.mp ha with rfl
            rfl
          · intro a ha
            rcases List.mem_singleton.mp ha with rfl
            show bt.id ∈ st.tables.map (fun ts => ts.id)
            rw [← hbt]
            exact List.mem_map_of_mem _ (List.getElem_mem hi)
          · exact Or.inl ⟨⟨g.id, bt.id, u⟩, List.mem_singleton.mpr rfl, rfl⟩

theorem autoAssignLoop_inv (db : DB) (p u : Nat)
    (hwfg : (db.guests.map (fun x => x.id)).Nodup)
    (hwft : (db.tables.map (fun t => t.id)).Nodup) :
    ∀ (gs : List Guest) (st : AAState),
    AAInv db p st →
    (∀ g ∈ gs, g ∈ db.guests) →
    (∀ g ∈ gs, findAssignment (dbPlus db st.newAssignments) g.id = none) →
    ((gs.map (fun g => g.id)).Nodup) →
    AAInv db p (autoAssignLoop db u gs st)
      ∧ (tablesCapOk st.tables → tablesCapOk (autoAssignLoop db u gs st).tables)
      ∧ TablesExt st.tables (autoAssignLoop db u gs st).tables
      ∧ (∃ ns2, (autoAssignLoop db u gs st).newAssignments = st.newAssignments ++ ns2
          ∧ (∀ a ∈ ns2, ∃ g ∈ gs, a.guestId = g.id)
          ∧ (∀ a ∈ ns2, a.tableId ∈ st.tables.map (fun ts => ts.id)))
      ∧ (∀ g ∈ gs,
          (∃ a ∈ (autoAssignLoop db u gs st).newAssignments, a.guestId = g.id)
          ∨ (pickBest g (allConstraintsOf db g.id)
              (autoAssignLoop db u gs st).tables).1 = none) := by
  intro gs
  induction gs with
  | nil =>
      intro st hinv _ _ _
      refine ⟨hinv, fun hc => hc, TablesExt_refl _,
        ⟨[], (List.append_nil _).symm, by simp, by simp⟩, by simp⟩
  | cons g gs ih =>
      intro st hinv hmem hfree hnd
      obtain ⟨hinv2, hcap1, hext1, ns2g, hnseq, hgid, htid, hdisp⟩ :=
        AAInv_step db p u st g hwfg hwft hinv (hmem g (List.mem_cons_self _ _))
          (hfree g (List.mem_cons_self _ _))
      rcases List.nodup_cons.mp (by simpa only [List.map_cons] using hnd)
        with ⟨hgnotin, hnd2⟩
      have hfree2 : ∀ g2 ∈ gs, findAssignment
          (dbPlus db (autoAssignStep db u st g).newAssignments) g2.id = none := by
        intro g2 hg2
        rw [hnseq]
        have hne : g.id ≠ g2.id := fun he =>
          hgnotin (he ▸ List.mem_map_of_mem _ hg2)
        show List.find? (fun a => a.guestId == g2.id)
          (db.assignments ++ (st.newAssignments ++ ns2g)) = none
        apply List.find?_eq_none.mpr
        intro x hx
        rw [← List.append_assoc] at hx
        rcases List.mem_append.mp hx with hx1 | hx2
        · have hold := hfree g2 (List.mem_cons_of_mem _ hg2)
          have hold2 : List.find? (fun a => a.guestId == g2.id)
              (db.assignments ++ st.newAssignments) = none := hold
          exact List.find?_eq_none.mp hold2 x hx1
        · have hxg := hgid x hx2
          simp [hxg, hne]
      have hmem2 : ∀ g2 ∈ gs, g2 ∈ db.guests := fun g2 hg2 =>
        hmem g2 (List.mem_cons_of_mem _ hg2)
      obtain ⟨hinvF, hcap2, hext2, ⟨ns2r, hnseqr, hgidr, htidr⟩, hdispr⟩ :=
        ih (autoAssignStep db u st g) hinv2 hmem2 hfree2 hnd2
      refine ⟨hinvF, fun hc => hcap2 (hcap1 hc), TablesExt_trans hext1 hext2,
        ⟨ns2g ++ ns2r, ?_, ?_, ?_⟩, ?_⟩
      · show (autoAssignLoop db u gs (autoAssignStep db u st g)).newAssignments
          = st.newAssignments ++ (ns2g ++ ns2r)
        rw [hnseqr, hnseq, List.append_assoc]
      · intro a ha
        rcases List.mem_append.mp ha with h1 | h2
        · exact ⟨g, List.mem_cons_self _ _, hgid a h1⟩
        · obtain ⟨g2, hg2, he⟩ := hgidr a h2
          exact ⟨g2, List.mem_cons_of_mem _ hg2, he⟩
      · intro a ha
        rcases List.mem_append.mp ha with h1 | h2
        · exact htid a h1
        · have hmemi := htidr a h2
          rw [TablesExt_ids hext1] at hmemi
          exact hmemi
      · intro g2 hg2
        rcases List.mem_cons.mp hg2 with heq | hg22
        · subst heq
          rcases hdisp with ⟨a, ha, he⟩ | ⟨hnone, htabeq⟩
          · left
            refine ⟨a, ?_, he⟩
            show a ∈ (autoAssignLoop db u gs (autoAssignStep db u st g2)).newAssignments
            rw [hnseqr]
            refine List.mem_append_left _ ?_
            rw [hnseq]
            exact List.mem_append_right _ ha
          · right
            refine pickBest_none_of_ext g2 (allConstraintsOf db g2.id) hext2 ?_
            rw [htabeq]
            exact hnone
        · exact hdispr g2 hg22

theorem autoAssignLoop_all_fail (db : DB) (u : Nat) :
    ∀ (gs : List Guest) (st : AAState),
    (∀ g ∈ gs, (pickBest g (allConstraintsOf db g.id) st.tables).1 = none) →
    (autoAssignLoop db u gs st).assigned = st.assigned
      ∧ (autoAssignLoop db u gs st).tables = st.tables
      ∧ (autoAssignLoop db u gs st).newAssignments = st.newAssignments := by
  intro gs
  induction gs with
  | nil =>
      intro st _
      exact ⟨rfl, rfl, rfl⟩
  | cons g gs ih =>
      intro st h
      have hstep := autoAssignStep_none db u st g (h g (List.mem_cons_self _ _))
      have h2 : ∀ g2 ∈ gs, (pickBest g2 (allConstraintsOf db g2.id)
          (autoAssignStep db u st g).tables).1 = none := by
        intro g2 hg2
        rw [hstep]
        exact h g2 (List.mem_cons_of_mem _ hg2)
      obtain ⟨h1, h2t, h3⟩ := ih (autoAssignStep db u st g) h2
      refine ⟨?_, ?_, ?_⟩
      · show (autoAssignLoop db u gs (autoAssignStep db u st g)).assigned = st.assigned
        rw [h1, hstep]
      · show (autoAssignLoop db u gs (autoAssignStep db u st g)).tables = st.tables
        rw [h2t, hstep]
      · show (autoAssignLoop db u gs (autoAssignStep db u st g)).newAssignments
          = st.newAssignments
        rw [h3, hstep]

theorem occupiedOf_mk (db : DB) (t : DiningTable) :
    occupiedOf ⟨t.id, t.name, t.capacity, (occupantGuests db t.id).map toOccGuest⟩
      = occupiedSeats db t.id := by
  show (((occupantGuests db t.id).map toOccGuest).map (fun o => o.headCount)).sum
    = occupiedSeats db t.id
  rw [List.map_map]
  rfl

theorem unassignedGuests_facts (db : DB) (p : Nat)
    (hgn : (db.guests.map (fun x => x.id)).Nodup) :
    (∀ g ∈ unassignedGuestsOf db p, g ∈ db.guests)
      ∧ (∀ g ∈ unassignedGuestsOf db p, findAssignment db g.id = none)
      ∧ ((unassignedGuestsOf db p).map (fun g => g.id)).Nodup := by
  have hperm : (unassignedGuestsOf db p).Perm (db.guests.filter (fun g =>
      g.projectId == p && (findAssignment db g.id).isNone)) := jsSort_perm _ _
  refine ⟨?_, ?_, ?_⟩
  · intro g hg
    exact (List.mem_filter.mp (hperm.mem_iff.mp hg)).1
  · intro g hg
    have hfg := (List.mem_filter.mp (hperm.mem_iff.mp hg)).2
    rw [Bool.and_eq_true] at hfg
    exact Option.isNone_iff_eq_none.mp hfg.2
  · have h1 : ((db.guests.filter (fun g =>
        g.projectId == p && (findAssignment db g.id).isNone)).map
          (fun g => g.id)).Nodup := by
      have hsub : List.Sublist ((db.guests.filter (fun g =>
            g.projectId == p && (findAssignment db g.id).isNone)).map (fun g => g.id))
          (db.guests.map (fun g => g.id)) :=
        List.Sublist.map _ (List.filter_sublist db.guests)
      exact hsub.nodup hgn
    exact ((hperm.map (fun g => g.id)).nodup_iff).mpr h1

theorem preserve_autoAssign {db db2 : DB} {u p : Nat} {r : AutoAssignResults}
    (hwf : WFdb db)
    (h : autoAssign db u p = Except.ok (r, db2)) :
    WFdb db2 ∧ (capacityOk db → capacityOk db2) := by
  obtain ⟨hres, hdb2⟩ := autoAssign_ok_inv h
  obtain ⟨hgn, htn, han⟩ := hwf
  obtain ⟨hmemu, hfreeu, hndu⟩ := unassignedGuests_facts db p hgn
  have hinv0 : AAInv db p ⟨0, 0, [], tableStatesOf db p, []⟩ := by
    refine ⟨?_, ?_⟩
    · show tableStatesOf db p = tableStatesOf (dbPlus db []) p
      rw [dbPlus_nil]
    · show ((dbPlus db []).assignments.map (fun a => a.guestId)).Nodup
      rw [dbPlus_nil]
      exact han
  have hfreeu2 : ∀ g ∈ unassignedGuestsOf db p,
      findAssignment (dbPlus db
        (⟨0, 0, [], tableStatesOf db p, []⟩ : AAState).newAssignments) g.id = none := by
    intro g hg
    show findAssignment (dbPlus db []) g.id = none
    rw [dbPlus_nil]
    exact hfreeu g hg
  obtain ⟨hinvF, hcapF, _, ⟨ns2, hns, hgids, htids⟩, _⟩ :=
    autoAssignLoop_inv db p u hgn htn (unassignedGuestsOf db p)
      ⟨0, 0, [], tableStatesOf db p, []⟩ hinv0 hmemu hfreeu2 hndu
  obtain ⟨hmirF, hndF⟩ := hinvF
  subst hdb2
  constructor
  · exact ⟨hgn, htn, hndF⟩
  · intro hcap
    have hcap0 : tablesCapOk (tableStatesOf db p) := by
      intro ts hts
      obtain ⟨t, htm, _, _, hcapt, hocct⟩ := tableStatesOf_mem_inv hts
      rw [hocct, hcapt]
      exact hcap t htm
    have hcapOkF : tablesCapOk (autoAssignLoop db u (unassignedGuestsOf db p)
        ⟨0, 0, [], tableStatesOf db p, []⟩).tables := hcapF hcap0
    intro t htm
    by_cases hp : (t.projectId == p) = true
    · have hts2 : (⟨t.id, t.name, t.capacity,
          (occupantGuests (dbPlus db (autoAssignLoop db u (unassignedGuestsOf db p)
            ⟨0, 0, [], tableStatesOf db p, []⟩).newAssignments) t.id).map toOccGuest⟩
          : TableState)
          ∈ tableStatesOf (dbPlus db (autoAssignLoop db u (unassignedGuestsOf db p)
            ⟨0, 0, [], tableStatesOf db p, []⟩).newAssignments) p :=
        tableStatesOf_mem_of_table htm hp
      rw [← hmirF] at hts2
      have hle := hcapOkF _ hts2
      rw [occupiedOf_mk] at hle
      exact hle
    · have hzero : occSum db.guests (autoAssignLoop db u (unassignedGuestsOf db p)
          ⟨0, 0, [], tableStatesOf db p, []⟩).newAssignments t.id = 0 := by
        apply occSum_zero_of_no_row
        intro a ha hat
        have hamem : a.tableId ∈ ((⟨0, 0, [], tableStatesOf db p, []⟩ : AAState).tables.map
            (fun ts => ts.id)) := by
          have hns2 : a ∈ ns2 := by
            have := hns
            simp only [List.nil_append] at this
            rw [this] at ha
            exact ha
          exact htids a hns2
        have hamem2 : a.tableId ∈ (db.tables.filter
            (fun t2 => t2.projectId == p)).map (fun t2 => t2.id) := by
          have hmeq : ((⟨0, 0, [], tableStatesOf db p, []⟩ : AAState).tables.map
              (fun ts => ts.id)) = (db.tables.filter
                (fun t2 => t2.projectId == p)).map (fun t2 => t2.id) :=
            tableStatesOf_ids db p
          rw [hmeq] at hamem
          exact hamem
        obtain ⟨t2, ht2f, ht2id⟩ := List.mem_map.mp hamem2
        have ht2m := List.mem_filter.mp ht2f
        have ht2eq : t2 = t := by
          apply List.inj_on_of_nodup_map htn ht2m.1 htm
          rw [ht2id]
          exact eq_of_beq hat
        rw [ht2eq] at ht2m
        exact hp ht2m.2
      show occSum db.guests (db.assignments
        ++ (autoAssignLoop db u (unassignedGuestsOf db p)
          ⟨0, 0, [], tableStatesOf db p, []⟩).newAssignments) t.id ≤ t.capacity
      rw [occSum_append, hzero]
      have hbase : occSum db.guests db.assignments t.id ≤ t.capacity := hcap t htm
      omega

end AutoAssignLoopLemmas

section RunOpsLemmas

theorem applyOp_preserves (db : DB) (op : Op) (hwf : WFdb db) :
    WFdb (applyOp db op) ∧ (capacityOk db → capacityOk (applyOp db op)) := by
  cases op with
  | assign u g t =>
      cases ha : assign db u g t with
      | ok res =>
          obtain ⟨a, db2⟩ := res
          simp only [applyOp, ha]
          exact preserve_assign hwf ha
      | error e =>
          simp only [applyOp, ha]
          exact ⟨hwf, fun hc => hc⟩
  | unassign u g =>
      cases ha : unassign db u g with
      | ok db2 =>
          simp only [applyOp, ha]
          exact preserve_unassign hwf ha
      | error e =>
          simp only [applyOp, ha]
          exact ⟨hwf, fun hc => hc⟩
  | move u g t =>
      cases ha : move db u g t with
      | ok db2 =>
          simp only [applyOp, ha]
          exact preserve_move hwf ha
      | error e =>
          simp only [applyOp, ha]
          exact ⟨hwf, fun hc => hc⟩
  | addConstraint u p g1 g2 ty =>
      cases ha : addConstraint db u p g1 g2 ty with
      | ok res =>
          obtain ⟨c, db2⟩ := res
          simp only [applyOp, ha]
          exact preserve_addConstraint hwf ha
      | error e =>
          simp only [applyOp, ha]
          exact ⟨hwf, fun hc => hc⟩
  | suggest p g =>
      exact ⟨hwf, fun hc => hc⟩
  | autoAssign u p =>
      cases ha : autoAssign db u p with
      | ok res =>
          obtain ⟨r, db2⟩ := res
          simp only [applyOp, ha]
          exact preserve_autoAssign hwf ha
      | error e =>
          simp only [applyOp, ha]
          exact ⟨hwf, fun hc => hc⟩

theorem runOps_preserves (db : DB) (ops : List Op) (hwf : WFdb db) :
    WFdb (runOps db ops) ∧ (capacityOk db → capacityOk (runOps db ops)) := by
  induction ops generalizing db with
  | nil => exact ⟨hwf, fun hc => hc⟩
  | cons op ops ih =>
      obtain ⟨hwf2, hcap2⟩ := applyOp_preserves db op hwf
      obtain ⟨hwf3, hcap3⟩ := ih (applyOp db op) hwf2
      exact ⟨hwf3, fun hc => hcap3 (hcap2 hc)⟩

end RunOpsLemmas

/-- C1: with a MUST_APART constraint between guests 1 and 2 and guest 1
seated at table 1, `assign` of guest 2 to table 1 is claimed to fail with
a ConstraintViolation naming both guests; the code instead creates the
assignment (the occupant sub-query of the assign route selects no `id`,
so the MUST_APART membership test compares real ids against `undefined`
and never fires), leaving the MUST_APART pair co-seated at table 1. -/
theorem claim_C1 :
    dbApart.constraints = [⟨1, 1, 2, ConstraintType.MUST_APART⟩]
      ∧ findAssignment dbApart 1 = some ⟨1, 1, 100⟩
      ∧ assign dbApart 100 2 1 = Except.ok (⟨2, 1, 100⟩,
          { dbApart with assignments := [⟨1, 1, 100⟩, ⟨2, 1, 100⟩] })
      ∧ (occupantGuests { dbApart with assignments := [⟨1, 1, 100⟩, ⟨2, 1, 100⟩] } 1).map
          (fun g => g.id) = [1, 2] := by
  refine ⟨rfl, rfl, rfl, by decide⟩

/-- C9: neither `assign` nor `move` compares the target table's project
with the guest's project: with the guest in one project, the table in a
different one, an editor role in the guest's project and sufficient
capacity, both operations succeed and bind the guest to the other
project's table.  (`assign` needs no constraint hypothesis at all: its
MUST_APART check can never fire, see C1; `move` does check constraints,
so the guest is assumed to have none.) -/
theorem claim_C9
    (db : DB) (userId guestId tableId : Nat) (g : Guest) (t : DiningTable)
    (m : ProjectMember)
    (hg : findGuest db guestId = some g)
    (hna : findAssignment db guestId = none)
    (ht : findTable db tableId = some t)
    (hcross : t.projectId ≠ g.projectId)
    (hm : findMember db g.projectId userId = some m)
    (hrole : m.role ≠ Role.VIEWER)
    (hcap : occupiedSeats db tableId + g.headCount ≤ t.capacity)
    (hnc : constraintsOf db guestId = []) :
    assign db userId guestId tableId = Except.ok (⟨guestId, tableId, userId⟩,
        { db with assignments := db.assignments ++ [⟨guestId, tableId, userId⟩] })
      ∧ move db userId guestId tableId
        = Except.ok { db with assignments := db.assignments ++ [⟨guestId, tableId, userId⟩] } := by
  have hbeq := role_beq_false hrole
  have hltfalse : ¬ (t.capacity < ((occupantGuests db tableId).map (fun g => g.headCount)).sum
      + g.headCount) := by
    simp only [occupiedSeats] at hcap
    omega
  constructor
  · simp only [assign, hg, hna, ht, hm, hbeq, Bool.false_eq_true, if_false, if_neg hltfalse,
      hnc, List.find?_nil]
  · simp only [move, hg, hm, hbeq, Bool.false_eq_true, if_false, ht, if_neg hltfalse,
      hnc, List.filter_nil, List.find?_nil, hna]

/-- Witness for C9 on a concrete database: guest 1 lives in project 1,
table 7 in project 2, and both operations bind them anyway. -/
theorem claim_C9_witness :
    assign dbCross 100 1 7 = Except.ok (⟨1, 7, 100⟩,
        { dbCross with assignments := [⟨1, 7, 100⟩] })
      ∧ move dbCross 100 1 7 = Except.ok { dbCross with assignments := [⟨1, 7, 100⟩] } :=
  claim_C9 dbCross 100 1 7 ⟨1, 1, "A", 1, [], none⟩ ⟨7, 2, "P2T", 10⟩ ⟨1, 100, Role.OWNER⟩
    rfl rfl rfl (by decide) rfl (by decide) (by decide) rfl

/-- C10: when `move` targets the table the guest is already assigned to,
the destination occupancy sum includes the guest's own headCount (third
conjunct), so the move fails with CapacityExceeded whenever
`capacity − occupied < headCount`, reporting the remaining seats computed
with the guest still counted. -/
theorem claim_C10
    (db : DB) (userId guestId : Nat) (g : Guest) (t : DiningTable)
    (m : ProjectMember) (a : SeatingAssignment)
    (hg : findGuest db guestId = some g)
    (hm : findMember db g.projectId userId = some m)
    (hrole : m.role ≠ Role.VIEWER)
    (ha : findAssignment db guestId = some a)
    (hat : a.tableId = t.id)
    (ht : findTable db t.id = some t)
    (hcap : (t.capacity : Int) - (occupiedSeats db t.id : Int) < (g.headCount : Int)) :
    move db userId guestId t.id
        = Except.error (SeatingError.CapacityExceeded
            ((t.capacity : Int) - (occupiedSeats db t.id : Int)) g.headCount)
      ∧ g ∈ occupantGuests db t.id
      ∧ g.headCount ≤ occupiedSeats db t.id := by
  have hbeq := role_beq_false hrole
  have hag : a.guestId = guestId := by
    have hp := List.find?_some ha
    exact eq_of_beq hp
  have hamem : a ∈ db.assignments := List.mem_of_find?_eq_some ha
  have hgmem : g ∈ occupantGuests db t.id := by
    refine List.mem_filterMap.mpr ⟨a, List.mem_filter.mpr ⟨hamem, by simp [hat]⟩, ?_⟩
    rw [hag]
    exact hg
  have hsum : g.headCount ≤ occupiedSeats db t.id := by
    exact List.single_le_sum (by simp) _ (List.mem_map_of_mem _ hgmem)
  have hlt : t.capacity < ((occupantGuests db t.id).map (fun g => g.headCount)).sum
      + g.headCount := by
    simp only [occupiedSeats] at hcap
    omega
  refine ⟨?_, hgmem, hsum⟩
  simp only [move, hg, hm, hbeq, Bool.false_eq_true, if_false, ht, if_pos hlt, occupiedSeats]

/-- Witness for C10: an exactly-full table (capacity 10, sole occupant of
headCount 10); moving that occupant to its own table fails with
CapacityExceeded reporting 0 remaining seats. -/
theorem claim_C10_witness :
    move dbFull 100 1 1 = Except.error (SeatingError.CapacityExceeded 0 10)
      ∧ (⟨1, 1, "Big", 10, [], none⟩ : Guest) ∈ occupantGuests dbFull 1
      ∧ 10 ≤ occupiedSeats dbFull 1 := by
  have h := claim_C10 dbFull 100 1 ⟨1, 1, "Big", 10, [], none⟩ ⟨1, 1, "T1", 10⟩
    ⟨1, 100, Role.OWNER⟩ ⟨1, 1, 100⟩ rfl rfl (by decide) rfl rfl rfl (by decide)
  simpa using h

section ConstraintClaims

/-- C7: once a constraint between guests G1 and G2 has been added, a
second attempt between the same pair — in either order and with any
constraint type — by any actor with a mutating role fails with
DuplicateConstraint and leaves the constraint set unchanged. -/
theorem claim_C7
    (db db1 : DB) (u p g1 g2 u2 p2 a b : Nat) (ty ty2 : ConstraintType)
    (c : SeatingConstraint) (m : ProjectMember)
    (h1 : addConstraint db u p g1 g2 ty = Except.ok (c, db1))
    (hm : findMember db1 p2 u2 = some m)
    (hrole : m.role ≠ Role.VIEWER)
    (hab : (a = g1 ∧ b = g2) ∨ (a = g2 ∧ b = g1)) :
    addConstraint db1 u2 p2 a b ty2 = Except.error SeatingError.DuplicateConstraint
      ∧ applyOp db1 (Op.addConstraint u2 p2 a b ty2) = db1
      ∧ db1.constraints = db.constraints ++ [⟨p, g1, g2, ty⟩] := by
  obtain ⟨hne, hc, hdb1⟩ := addConstraint_ok_inv h1
  have habne : a ≠ b := by
    rcases hab with ⟨rfl, rfl⟩ | ⟨rfl, rfl⟩
    · exact hne
    · exact hne.symm
  have habbeq : (a == b) = false := beq_eq_false_iff_ne.mpr habne
  have hcpred : ((c.guest1Id == a && c.guest2Id == b)
      || (c.guest1Id == b && c.guest2Id == a)) = true := by
    subst hc
    rcases hab with ⟨rfl, rfl⟩ | ⟨rfl, rfl⟩ <;> simp
  have hcmem : c ∈ db1.constraints := by
    rw [hdb1]
    simp
  have herr : addConstraint db1 u2 p2 a b ty2
      = Except.error SeatingError.DuplicateConstraint := by
    unfold addConstraint
    cases hf : db1.constraints.find? (fun x =>
        (x.guest1Id == a && x.guest2Id == b) || (x.guest1Id == b && x.guest2Id == a)) with
    | none =>
        exfalso
        exact absurd hcpred (by simpa using List.find?_eq_none.mp hf c hcmem)
    | some c0 =>
        simp only [habbeq, Bool.false_eq_true, if_false, hm, role_beq_false hrole, hf]
  refine ⟨herr, ?_, by rw [hdb1, hc]⟩
  simp [applyOp, herr]

/-- Witness for C7: adding (1,2,MUST_APART) to a two-guest project then
attempting (2,1,MUST_TOGETHER) fails with DuplicateConstraint. -/
theorem claim_C7_witness :
    addConstraint dbTwoGuests 100 1 1 2 ConstraintType.MUST_APART
        = Except.ok (⟨1, 1, 2, ConstraintType.MUST_APART⟩, dbDup1)
      ∧ addConstraint dbDup1 100 1 2 1 ConstraintType.MUST_TOGETHER
        = Except.error SeatingError.DuplicateConstraint := by
  refine ⟨rfl, ?_⟩
  exact (claim_C7 dbTwoGuests dbDup1 100 1 1 2 100 1 2 1 ConstraintType.MUST_APART
    ConstraintType.MUST_TOGETHER ⟨1, 1, 2, ConstraintType.MUST_APART⟩ ⟨1, 100, Role.OWNER⟩
    rfl rfl (by decide) (Or.inr ⟨rfl, rfl⟩)).1

end ConstraintClaims

section SuggestClaims

theorem constraintScan_count (guestId : Nat) (occIds : List Nat)
    (cs : List SeatingConstraint)
    (h : (constraintScan guestId occIds cs).1 = false) :
    (constraintScan guestId occIds cs).2
      = (cs.filter (fun c => c.constraintType == ConstraintType.MUST_TOGETHER
          && occIds.contains (otherMemberId c guestId))).length := by
  induction cs with
  | nil => rfl
  | cons c rest ih =>
      cases hma : (c.constraintType == ConstraintType.MUST_APART
          && occIds.contains (otherMemberId c guestId)) with
      | true =>
          exfalso
          simp only [constraintScan, if_pos hma] at h
          exact absurd h (by simp)
      | false =>
          have hma2 : ¬ ((c.constraintType == ConstraintType.MUST_APART
              && occIds.contains (otherMemberId c guestId)) = true) := by
            intro hh
            rw [hh] at hma
            exact Bool.noConfusion hma
          simp only [constraintScan, if_neg hma2] at h ⊢
          simp only [List.filter_cons]
          by_cases hmt : (c.constraintType == ConstraintType.MUST_TOGETHER
              && occIds.contains (otherMemberId c guestId)) = true
          · rw [if_pos hmt, if_pos hmt, ih h, List.length_cons]
            omega
          · rw [if_neg hmt, if_neg hmt, ih h]
            omega

/-- C3: the score the suggest route computes for an admissible candidate
table equals the flat formula of the spec: ten points per tag of the
candidate appearing among the occupants, five per occupant sharing the
candidate's area, twenty per satisfied MUST_TOGETHER constraint, minus a
flat five when the table's pre-seating available seats are at most two. -/
theorem claim_C3
    (db : DB) (guest : Guest) (table : DiningTable) (s : Suggestion)
    (h : suggestionFor db guest table = some s) :
    s.score = specSuggestScore db guest table := by
  simp only [suggestionFor] at h
  split at h
  · exact absurd h (by simp)
  · split at h
    next hconf =>
        exact absurd h (by simp)
    next hconf =>
        have hfalse : (constraintScan guest.id
            ((occupantGuests db table.id).map (fun g => g.id))
            (allConstraintsOf db guest.id)).1 = false := by
          simpa using hconf
        have hcount := constraintScan_count guest.id
          ((occupantGuests db table.id).map (fun g => g.id))
          (allConstraintsOf db guest.id) hfalse
        obtain rfl : _ = s := Option.some.inj h
        dsimp only
        simp only [specSuggestScore, mustTogetherCount]
        rw [← hcount]
        split
        next hav => ring
        next hav => ring

/-- Witness for C3: in `dbScore` every term of the formula is exercised
(one matching tag, one same-area occupant, one satisfied MUST_TOGETHER,
near-full penalty), and the computed score matches the formula. -/
theorem claim_C3_witness :
    ∃ s, suggestionFor dbScore guestSc tableSc = some s
      ∧ s.score = specSuggestScore dbScore guestSc tableSc
      ∧ specSuggestScore dbScore guestSc tableSc = 10 * 1 + 5 * 1 + 20 * 1 - 5 :=
  ⟨_, rfl, claim_C3 dbScore guestSc tableSc _ rfl, by decide⟩

/-- C6: the suggest route returns at most five candidates, sorted by
score descending; the full sorted list is a permutation of the candidate
list with ties left in table-scan encounter order (elements of equal
score keep their candidate-list relative order: the filter to any fixed
score is unchanged by the sort); the route mutates nothing, and a
repeated call on the resulting state returns the identical list. -/
theorem claim_C6
    (db : DB) (projectId guestId : Nat) (g : Guest) (l : List Suggestion)
    (hg : findGuest db guestId = some g)
    (h : suggest db projectId guestId = Except.ok l) :
    l = (jsSort suggestLE (suggestCandidates db g projectId)).take 5
      ∧ l.length ≤ 5
      ∧ l.Pairwise (fun a b => b.score ≤ a.score)
      ∧ (jsSort suggestLE (suggestCandidates db g projectId)).Perm
          (suggestCandidates db g projectId)
      ∧ (∀ v : Int, (jsSort suggestLE (suggestCandidates db g projectId)).filter
            (fun x => x.score == v)
          = (suggestCandidates db g projectId).filter (fun x => x.score == v))
      ∧ applyOp db (Op.suggest projectId guestId) = db
      ∧ suggest (applyOp db (Op.suggest projectId guestId)) projectId guestId
          = Except.ok l := by
  have hl : l = (jsSort suggestLE (suggestCandidates db g projectId)).take 5 := by
    unfold suggest at h
    rw [hg] at h
    exact (Except.ok.inj h).symm
  have htot : ∀ a b : Suggestion, suggestLE a b = true ∨ suggestLE b a = true := by
    intro a b
    simp only [suggestLE, decide_eq_true_eq]
    exact le_total b.score a.score
  have htrans : ∀ a b c : Suggestion,
      suggestLE a b = true → suggestLE b c = true → suggestLE a c = true := by
    intro a b c hab hbc
    simp only [suggestLE, decide_eq_true_eq] at hab hbc ⊢
    exact le_trans hbc hab
  have hsorted := pairwise_jsSort htot htrans (suggestCandidates db g projectId)
  refine ⟨hl, ?_, ?_, jsSort_perm _ _, ?_, rfl, ?_⟩
  · rw [hl]
    exact List.length_take_le _ _
  · rw [hl]
    exact (hsorted.sublist (List.take_sublist _ _)).imp
      (fun hx => by simpa [suggestLE] using hx)
  · intro v
    refine filter_jsSort ?_ _
    intro a b hpa hlab
    have ha : a.score = v := by simpa using hpa
    have hb : a.score < b.score := by
      have := of_decide_eq_false hlab
      omega
    have : b.score ≠ v := by omega
    simpa using this
  · exact h

/-- Witness for C6 on `dbApart`: the suggestion list for guest 2 exists,
is short enough, sorted, and stable across a repeated call. -/
theorem claim_C6_witness :
    ∃ l, suggest dbApart 1 2 = Except.ok l
      ∧ l.length ≤ 5
      ∧ l.Pairwise (fun a b => b.score ≤ a.score)
      ∧ suggest (applyOp dbApart (Op.suggest 1 2)) 1 2 = Except.ok l := by
  obtain ⟨h1, h2, h3, h4, h5, h6, h7⟩ :=
    claim_C6 dbApart 1 2 ⟨2, 1, "B", 1, [], none⟩ _ rfl rfl
  exact ⟨_, rfl, h2, h3, h7⟩

end SuggestClaims

section InvariantClaims

/-- C5: the unique `guestId` column is an invariant of every request
sequence (starting from a well-formed database, every guest has at most
one assignment row at all times), and `assign` on a guest that already
has an assignment fails with AlreadyAssigned and leaves the database
unchanged. -/
theorem claim_C5 :
    (∀ (db : DB) (ops : List Op), WFdb db →
        ((runOps db ops).assignments.map (fun a => a.guestId)).Nodup)
      ∧ ∀ (db : DB) (u gid tid : Nat) (g : Guest) (a : SeatingAssignment),
          findGuest db gid = some g →
          findAssignment db gid = some a →
          assign db u gid tid = Except.error SeatingError.AlreadyAssigned
            ∧ applyOp db (Op.assign u gid tid) = db := by
  constructor
  · intro db ops hwf
    exact (runOps_preserves db ops hwf).1.2.2
  · intro db u gid tid g a hg ha
    have herr : assign db u gid tid = Except.error SeatingError.AlreadyAssigned := by
      simp only [assign, hg, ha]
    exact ⟨herr, by simp only [applyOp, herr]⟩

/-- Witness for C5: on `dbApart` any request sequence keeps guest ids
unique in the assignment table, and re-assigning the already-seated
guest 1 fails with AlreadyAssigned without touching the database. -/
theorem claim_C5_witness :
    ((runOps dbApart [Op.assign 100 2 1, Op.move 100 2 2]).assignments.map
        (fun a => a.guestId)).Nodup
      ∧ (assign dbApart 100 1 1 = Except.error SeatingError.AlreadyAssigned
          ∧ applyOp dbApart (Op.assign 100 1 1) = dbApart) :=
  ⟨claim_C5.1 dbApart [Op.assign 100 2 1, Op.move 100 2 2]
     ⟨by decide, by decide, by decide⟩,
   claim_C5.2 dbApart 100 1 1 ⟨1, 1, "A", 1, [], none⟩ ⟨1, 1, 100⟩ rfl rfl⟩

/-- C2: starting from a well-formed database satisfying the capacity
invariant, every request sequence preserves it; a single `assign` (or
`move`) whose target table lacks seats fails with CapacityExceeded
carrying the remaining seats (capacity minus occupied, as an integer) and
the required seats, and leaves the database unchanged. -/
theorem claim_C2 :
    (∀ (db : DB) (ops : List Op), WFdb db → capacityOk db →
        capacityOk (runOps db ops))
      ∧ (∀ (db : DB) (u gid tid : Nat) (g : Guest) (t : DiningTable) (m : ProjectMember),
          findGuest db gid = some g →
          findAssignment db gid = none →
          findTable db tid = some t →
          findMember db g.projectId u = some m →
          m.role ≠ Role.VIEWER →
          t.capacity < occupiedSeats db tid + g.headCount →
          assign db u gid tid = Except.error (SeatingError.CapacityExceeded
              ((t.capacity : Int) - (occupiedSeats db tid : Int)) g.headCount)
            ∧ applyOp db (Op.assign u gid tid) = db)
      ∧ (∀ (db : DB) (u gid tid : Nat) (g : Guest) (t : DiningTable) (m : ProjectMember),
          findGuest db gid = some g →
          findMember db g.projectId u = some m →
          m.role ≠ Role.VIEWER →
          findTable db tid = some t →
          t.capacity < occupiedSeats db tid + g.headCount →
          move db u gid tid = Except.error (SeatingError.CapacityExceeded
              ((t.capacity : Int) - (occupiedSeats db tid : Int)) g.headCount)
            ∧ applyOp db (Op.move u gid tid) = db) := by
  refine ⟨?_, ?_, ?_⟩
  · intro db ops hwf hcap
    exact (runOps_preserves db ops hwf).2 hcap
  · intro db u gid tid g t m hg hna ht hm hrole hlt
    have hbeq := role_beq_false hrole
    have hlt2 : t.capacity
        < ((occupantGuests db tid).map (fun x => x.headCount)).sum + g.headCount := by
      simpa only [occupiedSeats] using hlt
    have herr : assign db u gid tid = Except.error (SeatingError.CapacityExceeded
        ((t.capacity : Int) - (occupiedSeats db tid : Int)) g.headCount) := by
      simp only [assign, hg, hna, ht, hm, hbeq, Bool.false_eq_true, if_false, if_pos hlt2]
      rfl
    exact ⟨herr, by simp only [applyOp, herr]⟩
  · intro db u gid tid g t m hg hm hrole ht hlt
    have hbeq := role_beq_false hrole
    have hlt2 : t.capacity
        < ((occupantGuests db tid).map (fun x => x.headCount)).sum + g.headCount := by
      simpa only [occupiedSeats] using hlt
    have herr : move db u gid tid = Except.error (SeatingError.CapacityExceeded
        ((t.capacity : Int) - (occupiedSeats db tid : Int)) g.headCount) := by
      simp only [move, hg, hm, hbeq, Bool.false_eq_true, if_false, ht, if_pos hlt2]
      rfl
    exact ⟨herr, by simp only [applyOp, herr]⟩

/-- Witness for C2: the spec's own capacity example — a table of capacity
10 holding nine seats rejects a two-seat guest with "1 remaining, need 2"
— plus invariant preservation along a request sequence on the same
database. -/
theorem claim_C2_witness :
    capacityOk (runOps dbCap [Op.assign 100 2 1, Op.unassign 100 1])
      ∧ (assign dbCap 100 2 1
          = Except.error (SeatingError.CapacityExceeded 1 2)
          ∧ applyOp dbCap (Op.assign 100 2 1) = dbCap)
      ∧ (move dbCap 100 2 1
          = Except.error (SeatingError.CapacityExceeded 1 2)
          ∧ applyOp dbCap (Op.move 100 2 1) = dbCap) :=
  ⟨claim_C2.1 dbCap [Op.assign 100 2 1, Op.unassign 100 1]
     ⟨by decide, by decide, by decide⟩ (by unfold capacityOk; decide),
   claim_C2.2.1 dbCap 100 2 1 ⟨2, 1, "Two", 2, [], none⟩ ⟨1, 1, "T1", 10⟩
     ⟨1, 100, Role.OWNER⟩ rfl rfl rfl rfl (by decide) (by decide),
   claim_C2.2.2 dbCap 100 2 1 ⟨2, 1, "Two", 2, [], none⟩ ⟨1, 1, "T1", 10⟩
     ⟨1, 100, Role.OWNER⟩ rfl rfl (by decide) rfl (by decide)⟩

end InvariantClaims

section AutoAssignClaims

/-- C8: after a successful auto-assign pass on a well-formed database,
running the pass again on the resulting database (nothing changed in
between) succeeds, assigns 0 additional guests, and leaves the database
exactly as the first pass left it: every guest still unassigned finds no
admissible table again. -/
theorem claim_C8 {db db1 : DB} {u p : Nat} {r1 : AutoAssignResults}
    (hwf : WFdb db)
    (h1 : autoAssign db u p = Except.ok (r1, db1)) :
    ∃ r2 : AutoAssignResults,
      autoAssign db1 u p = Except.ok (r2, db1) ∧ r2.assigned = 0 := by
  obtain ⟨hgn, htn, han⟩ := hwf
  obtain ⟨hres1, hdb1⟩ := autoAssign_ok_inv h1
  have hmem : ∃ m, findMember db p u = some m ∧ (m.role == Role.VIEWER) = false := by
    unfold autoAssign at h1
    cases hm : findMember db p u with
    | none =>
        simp only [hm] at h1
        exact Except.noConfusion h1
    | some m =>
        simp only [hm] at h1
        cases hr : (m.role == Role.VIEWER) with
        | true =>
            simp only [hr, if_true] at h1
            exact Except.noConfusion h1
        | false => exact ⟨m, rfl, hr⟩
  obtain ⟨m, hm, hr⟩ := hmem
  obtain ⟨hmemu, hfreeu, hndu⟩ := unassignedGuests_facts db p hgn
  have hinv0 : AAInv db p ⟨0, 0, [], tableStatesOf db p, []⟩ := by
    refine ⟨?_, ?_⟩
    · show tableStatesOf db p = tableStatesOf (dbPlus db []) p
      rw [dbPlus_nil]
    · show ((dbPlus db []).assignments.map (fun a => a.guestId)).Nodup
      rw [dbPlus_nil]
      exact han
  have hfreeu2 : ∀ g ∈ unassignedGuestsOf db p,
      findAssignment (dbPlus db
        (⟨0, 0, [], tableStatesOf db p, []⟩ : AAState).newAssignments) g.id = none := by
    intro g hg
    show findAssignment (dbPlus db []) g.id = none
    rw [dbPlus_nil]
    exact hfreeu g hg
  obtain ⟨⟨hmirF, hndF⟩, _, _, _, hdisp⟩ :=
    autoAssignLoop_inv db p u hgn htn (unassignedGuestsOf db p)
      ⟨0, 0, [], tableStatesOf db p, []⟩ hinv0 hmemu hfreeu2 hndu
  subst hdb1
  have hall : ∀ g ∈ unassignedGuestsOf
      (dbPlus db (autoAssignLoop db u (unassignedGuestsOf db p)
        ⟨0, 0, [], tableStatesOf db p, []⟩).newAssignments) p,
      (pickBest g (allConstraintsOf db g.id)
        (tableStatesOf (dbPlus db (autoAssignLoop db u (unassignedGuestsOf db p)
          ⟨0, 0, [], tableStatesOf db p, []⟩).newAssignments) p)).1 = none := by
    intro g hg
    have hperm2 := jsSort_perm (fun a b => decide (b.headCount ≤ a.headCount))
      ((dbPlus db (autoAssignLoop db u (unassignedGuestsOf db p)
        ⟨0, 0, [], tableStatesOf db p, []⟩).newAssignments).guests.filter (fun g2 =>
          g2.projectId == p && (findAssignment (dbPlus db
            (autoAssignLoop db u (unassignedGuestsOf db p)
              ⟨0, 0, [], tableStatesOf db p, []⟩).newAssignments) g2.id).isNone))
    have hfg := List.mem_filter.mp (hperm2.mem_iff.mp hg)
    have hgdb : g ∈ db.guests := hfg.1
    have hcond := hfg.2
    rw [Bool.and_eq_true] at hcond
    have hproj : (g.projectId == p) = true := hcond.1
    have hfree1 : findAssignment (dbPlus db (autoAssignLoop db u (unassignedGuestsOf db p)
        ⟨0, 0, [], tableStatesOf db p, []⟩).newAssignments) g.id = none :=
      Option.isNone_iff_eq_none.mp hcond.2
    have hfree1l : List.find? (fun a => a.guestId == g.id)
        (db.assignments ++ (autoAssignLoop db u (unassignedGuestsOf db p)
          ⟨0, 0, [], tableStatesOf db p, []⟩).newAssignments) = none := hfree1
    have hfreedb : findAssignment db g.id = none := by
      show List.find? (fun a => a.guestId == g.id) db.assignments = none
      apply List.find?_eq_none.mpr
      intro x hx
      exact List.find?_eq_none.mp hfree1l x (List.mem_append_left _ hx)
    have hg1 : g ∈ unassignedGuestsOf db p := by
      have hperm1 := jsSort_perm (fun a b => decide (b.headCount ≤ a.headCount))
        (db.guests.filter (fun g2 =>
          g2.projectId == p && (findAssignment db g2.id).isNone))
      apply hperm1.mem_iff.mpr
      refine List.mem_filter.mpr ⟨hgdb, ?_⟩
      rw [Bool.and_eq_true]
      exact ⟨hproj, by rw [hfreedb]; rfl⟩
    rcases hdisp g hg1 with ⟨a, ha, hae⟩ | hnone
    · exfalso
      have hmemb : a ∈ db.assignments ++ (autoAssignLoop db u (unassignedGuestsOf db p)
          ⟨0, 0, [], tableStatesOf db p, []⟩).newAssignments :=
        List.mem_append_right _ ha
      have hnf := List.find?_eq_none.mp hfree1l a hmemb
      simp [hae] at hnf
    · rw [← hmirF]
      exact hnone
  obtain ⟨ha2, _, hn2⟩ := autoAssignLoop_all_fail
    (dbPlus db (autoAssignLoop db u (unassignedGuestsOf db p)
      ⟨0, 0, [], tableStatesOf db p, []⟩).newAssignments) u
    (unassignedGuestsOf (dbPlus db (autoAssignLoop db u (unassignedGuestsOf db p)
      ⟨0, 0, [], tableStatesOf db p, []⟩).newAssignments) p)
    ⟨0, 0, [], tableStatesOf (dbPlus db (autoAssignLoop db u (unassignedGuestsOf db p)
      ⟨0, 0, [], tableStatesOf db p, []⟩).newAssignments) p, []⟩
    hall
  refine ⟨⟨(autoAssignLoop (dbPlus db (autoAssignLoop db u (unassignedGuestsOf db p)
        ⟨0, 0, [], tableStatesOf db p, []⟩).newAssignments) u
      (unassignedGuestsOf (dbPlus db (autoAssignLoop db u (unassignedGuestsOf db p)
        ⟨0, 0, [], tableStatesOf db p, []⟩).newAssignments) p)
      ⟨0, 0, [], tableStatesOf (dbPlus db (autoAssignLoop db u
        (unassignedGuestsOf db p) ⟨0, 0, [], tableStatesOf db p, []⟩).newAssignments) p,
        []⟩).assigned,
      (autoAssignLoop (dbPlus db (autoAssignLoop db u (unassignedGuestsOf db p)
        ⟨0, 0, [], tableStatesOf db p, []⟩).newAssignments) u
      (unassignedGuestsOf (dbPlus db (autoAssignLoop db u (unassignedGuestsOf db p)
        ⟨0, 0, [], tableStatesOf db p, []⟩).newAssignments) p)
      ⟨0, 0, [], tableStatesOf (dbPlus db (autoAssignLoop db u
        (unassignedGuestsOf db p) ⟨0, 0, [], tableStatesOf db p, []⟩).newAssignments) p,
        []⟩).failed,
      (autoAssignLoop (dbPlus db (autoAssignLoop db u (unassignedGuestsOf db p)
        ⟨0, 0, [], tableStatesOf db p, []⟩).newAssignments) u
      (unassignedGuestsOf (dbPlus db (autoAssignLoop db u (unassignedGuestsOf db p)
        ⟨0, 0, [], tableStatesOf db p, []⟩).newAssignments) p)
      ⟨0, 0, [], tableStatesOf (dbPlus db (autoAssignLoop db u
        (unassignedGuestsOf db p) ⟨0, 0, [], tableStatesOf db p, []⟩).newAssignments) p,
        []⟩).details⟩, ?_, ha2⟩
  have hm2 : findMember (dbPlus db (autoAssignLoop db u (unassignedGuestsOf db p)
      ⟨0, 0, [], tableStatesOf db p, []⟩).newAssignments) p u = some m := hm
  simp only [autoAssign, hm2, hr, Bool.false_eq_true, if_false]
  have hn2e : (autoAssignLoop (dbPlus db (autoAssignLoop db u (unassignedGuestsOf db p)
      ⟨0, 0, [], tableStatesOf db p, []⟩).newAssignments) u
    (unassignedGuestsOf (dbPlus db (autoAssignLoop db u (unassignedGuestsOf db p)
      ⟨0, 0, [], tableStatesOf db p, []⟩).newAssignments) p)
    ⟨0, 0, [], tableStatesOf (dbPlus db (autoAssignLoop db u (unassignedGuestsOf db p)
      ⟨0, 0, [], tableStatesOf db p, []⟩).newAssignments) p,
      []⟩).newAssignments = [] := hn2
  rw [hn2e, List.append_nil]

theorem hasApartConflict_filter_apart (cs : List SeatingConstraint) (gid : Nat)
    (ids : List Nat) :
    hasApartConflict cs gid ids
      = hasApartConflict (cs.filter (fun c =>
          c.constraintType == ConstraintType.MUST_APART)) gid ids := by
  unfold hasApartConflict
  induction cs with
  | nil => rfl
  | cons c cs ih =>
      rw [List.filter_cons]
      cases hc : (c.constraintType == ConstraintType.MUST_APART) with
      | true => simp [List.any_cons, ih, hc]
      | false => simp [List.any_cons, ih, hc]

/-- C4: the auto-assign pass processes the project's unassigned guests in
descending headCount order (a permutation of the unassigned-guest rows);
for one guest the table scan rejects exactly the tables with too few
available seats or a seated MUST_APART partner (MUST_TOGETHER rows never
affect admissibility), scores each admissible table as 10 per matching
tag and nothing else, and picks the admissible table of maximal score,
earliest in scan order on ties; a success commits the row and the updated
in-memory occupancy to the state threaded to the later guests, a failure
increments the failure counter, records a detail line, and the loop
continues with the next guest. -/
theorem claim_C4 (db : DB) (p : Nat) :
    ((unassignedGuestsOf db p).Pairwise (fun a b => b.headCount ≤ a.headCount)
        ∧ (unassignedGuestsOf db p).Perm (db.guests.filter (fun g =>
            g.projectId == p && (findAssignment db g.id).isNone)))
      ∧ (∀ (g : Guest) (cs : List SeatingConstraint) (T : List TableState),
          (pickBest g cs T).1 = none
            ↔ ∀ t ∈ T, availableOf t < (g.headCount : Int)
                ∨ hasApartConflict cs g.id (t.occupants.map (fun o => o.id)) = true)
      ∧ (∀ (cs : List SeatingConstraint) (gid : Nat) (ids : List Nat),
          hasApartConflict cs gid ids
            = hasApartConflict (cs.filter (fun c =>
                c.constraintType == ConstraintType.MUST_APART)) gid ids)
      ∧ (∀ (g : Guest) (t : TableState),
          autoScore g t = 10 * ((g.tags.filter (fun tg =>
            (t.occupants.flatMap (fun o => o.tags)).contains tg)).length : Int))
      ∧ (∀ (g : Guest) (cs : List SeatingConstraint) (T : List TableState)
            (i : Nat) (bt : TableState) (s : Int),
          pickBest g cs T = (some (i, bt), s) →
          ∃ hi : i < T.length, T[i] = bt ∧ ¬ skipsTable g cs bt ∧ s = autoScore g bt
            ∧ (∀ j, (hj : j < T.length) → ¬ skipsTable g cs (T[j])
                → autoScore g (T[j]) ≤ s)
            ∧ (∀ j, (hj : j < T.length) → j < i → ¬ skipsTable g cs (T[j])
                → autoScore g (T[j]) < s))
      ∧ (∀ (u : Nat) (st : AAState) (g : Guest) (i : Nat) (bt : TableState) (s : Int),
          pickBest g (allConstraintsOf db g.id) st.tables = (some (i, bt), s) →
          autoAssignStep db u st g
            = { assigned := st.assigned + 1, failed := st.failed,
                details := st.details ++ [⟨g.name, some bt.name, none⟩],
                tables := st.tables.set i
                  { bt with occupants := bt.occupants ++ [toOccGuest g] },
                newAssignments := st.newAssignments ++ [⟨g.id, bt.id, u⟩] })
      ∧ (∀ (u : Nat) (st : AAState) (g : Guest),
          (pickBest g (allConstraintsOf db g.id) st.tables).1 = none →
          autoAssignStep db u st g
            = { st with
                failed := st.failed + 1
                details := st.details ++ [⟨g.name, none, some "没有合适的桌位"⟩] })
      ∧ (∀ (u : Nat) (g : Guest) (gs : List Guest) (st : AAState),
          autoAssignLoop db u (g :: gs) st
            = autoAssignLoop db u gs (autoAssignStep db u st g)) := by
  refine ⟨⟨?_, jsSort_perm _ _⟩, ?_, ?_, ?_, ?_, ?_, ?_, ?_⟩
  · have htot : ∀ a b : Guest,
        decide (b.headCount ≤ a.headCount) = true
          ∨ decide (a.headCount ≤ b.headCount) = true := by
      intro a b
      rcases le_total b.headCount a.headCount with h | h
      · exact Or.inl (decide_eq_true h)
      · exact Or.inr (decide_eq_true h)
    have htrans : ∀ a b c : Guest,
        decide (b.headCount ≤ a.headCount) = true
          → decide (c.headCount ≤ b.headCount) = true
          → decide (c.headCount ≤ a.headCount) = true := by
      intro a b c hab hbc
      exact decide_eq_true (le_trans (of_decide_eq_true hbc) (of_decide_eq_true hab))
    exact (pairwise_jsSort htot htrans _).imp (fun hx => of_decide_eq_true hx)
  · intro g cs T
    rw [pickBest_none_iff]
    constructor
    · intro h t ht
      exact h t ht
    · intro h t ht
      exact h t ht
  · exact hasApartConflict_filter_apart
  · intro g t
    unfold autoScore
    ring
  · intro g cs T i bt s h
    exact pickBest_some_spec g cs T h
  · intro u st g i bt s h
    exact autoAssignStep_some db u st g i bt s h
  · intro u st g h
    exact autoAssignStep_none db u st g h
  · intro u g gs st
    rfl

/-- Witness for C4 on `dbAuto`: the unassigned list is sorted by
headCount descending; the five-seat guest 2 is rejected by every table;
the tag-affinity score of guest 3 against a table seating guest 1 is 10;
and the failing step for guest 2 increments the failure counter while the
loop equation continues with the next guest. -/
theorem claim_C4_witness :
    (unassignedGuestsOf dbAuto 1).Pairwise (fun a b => b.headCount ≤ a.headCount)
      ∧ (pickBest ⟨2, 1, "B", 5, [], none⟩ (allConstraintsOf dbAuto 2)
          (tableStatesOf dbAuto 1)).1 = none
      ∧ autoScore ⟨3, 1, "C", 1, ["x"], none⟩ ⟨1, "T1", 3, [⟨1, 2, ["x"]⟩]⟩ = 10
      ∧ autoAssignStep dbAuto 100 ⟨0, 0, [], tableStatesOf dbAuto 1, []⟩
          ⟨2, 1, "B", 5, [], none⟩
          = ⟨0, 1, [⟨"B", none, some "没有合适的桌位"⟩], tableStatesOf dbAuto 1, []⟩
      ∧ autoAssignLoop dbAuto 100
          [⟨2, 1, "B", 5, [], none⟩, ⟨3, 1, "C", 1, ["x"], none⟩]
          ⟨0, 0, [], tableStatesOf dbAuto 1, []⟩
        = autoAssignLoop dbAuto 100 [⟨3, 1, "C", 1, ["x"], none⟩]
            (autoAssignStep dbAuto 100 ⟨0, 0, [], tableStatesOf dbAuto 1, []⟩
              ⟨2, 1, "B", 5, [], none⟩) := by
  obtain ⟨⟨h1, _⟩, h2, _, h4, _, _, h7, h8⟩ := claim_C4 dbAuto 1
  refine ⟨h1, ?_, ?_, ?_, ?_⟩
  · exact (h2 ⟨2, 1, "B", 5, [], none⟩ (allConstraintsOf dbAuto 2)
      (tableStatesOf dbAuto 1)).mpr (by decide)
  · exact (h4 ⟨3, 1, "C", 1, ["x"], none⟩ ⟨1, "T1", 3, [⟨1, 2, ["x"]⟩]⟩).trans
      (by decide)
  · exact h7 100 ⟨0, 0, [], tableStatesOf dbAuto 1, []⟩ ⟨2, 1, "B", 5, [], none⟩
      (by rfl)
  · exact h8 100 ⟨2, 1, "B", 5, [], none⟩ [⟨3, 1, "C", 1, ["x"], none⟩]
      ⟨0, 0, [], tableStatesOf dbAuto 1, []⟩

/-- Witness for C8 on `dbAuto`: the first auto-assign pass seats guests
1 and 3 at table 1 (guest 2's five-seat party fits nowhere); the theorem
then yields a second pass that assigns 0 and returns the same database. -/
theorem claim_C8_witness :
    ∃ r2 : AutoAssignResults,
      autoAssign (dbPlus dbAuto [⟨1, 1, 100⟩, ⟨3, 1, 100⟩]) 100 1
        = Except.ok (r2, dbPlus dbAuto [⟨1, 1, 100⟩, ⟨3, 1, 100⟩])
      ∧ r2.assigned = 0 :=
  claim_C8 (⟨by decide, by decide, by decide⟩ : WFdb dbAuto) (by rfl)

end AutoAssignClaims

end WeddingSeating
